import Mathlib

/-!
Verification of the tick-to-bar replay core of `momentum-stock-replay`.

This file gives a shallow embedding, in Lean, of the replay subsystem:

* `TickAggregator` (packages/replay-engine/src/TickAggregator.ts),
* `ReplayEngine` (packages/replay-engine/src/ReplayEngine.ts),
* the binary session decoders (app/src/utils/api.js), and
* the order-book view (app/src/hooks/useOrderBook.js),

and proves properties of the embedded definitions.  JavaScript numbers are
modelled as rationals (`ℚ`); machine-level byte buffers are lists of naturals
below 256.  Throwing code is modelled with `Except`; timer-driven playback is
modelled by passing the elapsed wall-clock time to the scheduler body as an
explicit argument.  Event emission is modelled by returning the emitted value.
-/

namespace MomentumReplay

/-! ## Data model (packages/replay-engine/src/types.ts) -/

/-- One tick (`TickData` in types.ts): timestamp in Unix seconds (fractions
allowed), a price, and an optional volume. -/
structure TickData where
  timestamp : ℚ
  price : ℚ
  volume : Option ℚ
deriving DecidableEq, Repr

/-- Default tick used to model JavaScript array indexing out of range; every
access in the embedding is guarded so the default is never observable. -/
def defaultTick : TickData := ⟨0, 0, none⟩

/-- One OHLCV bar (`ReplayableBar` in types.ts).  The aggregator always
initialises `volume` (to `0` when the tick has none), so the field is total
here.  The `open` field is renamed `open_` because `open` is a Lean keyword. -/
structure ReplayableBar where
  time : ℚ
  open_ : ℚ
  high : ℚ
  low : ℚ
  close : ℚ
  volume : ℚ
deriving DecidableEq, Repr

/-! ## TickAggregator (packages/replay-engine/src/TickAggregator.ts)

The `bars` field of the class is a JavaScript `Map<number, ReplayableBar>`;
it is modelled as an insertion-ordered association list with unique keys.
`mapSet` updates an existing key in place (keeping its position, as `Map.set`
does) and appends unknown keys. -/

/-- Insertion-ordered map model of `Map<number, ReplayableBar>`. -/
abbrev BarMap := List (ℚ × ReplayableBar)

/-- Lookup in the bar map (`Map.get`). -/
def mapFind : BarMap → ℚ → Option ReplayableBar
  | [], _ => none
  | (k', v) :: rest, k => if k' = k then some v else mapFind rest k

/-- Update/insert in the bar map (`Map.set`): an existing key keeps its
insertion position, a new key is appended. -/
def mapSet : BarMap → ℚ → ReplayableBar → BarMap
  | [], k, v => [(k, v)]
  | (k', v') :: rest, k, v =>
    if k' = k then (k, v) :: rest else (k', v') :: mapSet rest k v

/-- State of a `TickAggregator` instance. -/
structure TickAggregator where
  intervalSeconds : ℚ
  bars : BarMap
  currentBarTime : Option ℚ
deriving DecidableEq, Repr

/-- The `TickAggregator` constructor.  It throws
`Error('Interval must be positive')` when `intervalSeconds <= 0`. -/
def TickAggregator.make (intervalSeconds : ℚ) : Except String TickAggregator :=
  if intervalSeconds ≤ 0 then .error "Interval must be positive"
  else .ok ⟨intervalSeconds, [], none⟩

/-- A fresh aggregator with the given interval: the state produced by the
constructor on its non-throwing path. -/
def freshAggregator (intervalSeconds : ℚ) : TickAggregator :=
  ⟨intervalSeconds, [], none⟩

/-- `getBarTime`: `Math.floor(timestamp / this.intervalSeconds) * this.intervalSeconds`. -/
def TickAggregator.getBarTime (agg : TickAggregator) (timestamp : ℚ) : ℚ :=
  (⌊timestamp / agg.intervalSeconds⌋ : ℚ) * agg.intervalSeconds

/-- `addTick`: returns the updated aggregator together with the bar that was
updated or created (the method's return value). -/
def TickAggregator.addTick (agg : TickAggregator) (tick : TickData) :
    TickAggregator × ReplayableBar :=
  let barTime := agg.getBarTime tick.timestamp
  match mapFind agg.bars barTime with
  | none =>
    let bar : ReplayableBar :=
      ⟨barTime, tick.price, tick.price, tick.price, tick.price, tick.volume.getD 0⟩
    (⟨agg.intervalSeconds, mapSet agg.bars barTime bar, some barTime⟩, bar)
  | some bar =>
    let bar' : ReplayableBar :=
      { bar with
        high := max bar.high tick.price
        low := min bar.low tick.price
        close := tick.price
        volume := bar.volume + tick.volume.getD 0 }
    (⟨agg.intervalSeconds, mapSet agg.bars barTime bar', some barTime⟩, bar')

/-- `getCurrentBar`. -/
def TickAggregator.getCurrentBar (agg : TickAggregator) : Option ReplayableBar :=
  match agg.currentBarTime with
  | none => none
  | some t => mapFind agg.bars t

/-- `getAllBars`: `Array.from(this.bars.values()).sort((a, b) => a.time - b.time)`.
JavaScript `sort` is stable; the keys of the map are distinct, so any
correct sort produces the same list. -/
def TickAggregator.getAllBars (agg : TickAggregator) : List ReplayableBar :=
  (agg.bars.map (·.2)).mergeSort (fun a b => decide (a.time ≤ b.time))

/-- `getBarsUntil`. -/
def TickAggregator.getBarsUntil (agg : TickAggregator) (timestamp : ℚ) :
    List ReplayableBar :=
  let barTime := agg.getBarTime timestamp
  agg.getAllBars.filter (fun bar => decide (bar.time ≤ barTime))

/-- `getBar`. -/
def TickAggregator.getBar (agg : TickAggregator) (time : ℚ) : Option ReplayableBar :=
  mapFind agg.bars time

/-- `getBarCount`. -/
def TickAggregator.getBarCount (agg : TickAggregator) : ℕ := agg.bars.length

/-- `reset`. -/
def TickAggregator.reset (agg : TickAggregator) : TickAggregator :=
  ⟨agg.intervalSeconds, [], none⟩

/-- `setInterval`: throws (first component unchanged, error returned) when the
interval is not positive, otherwise installs the new interval and resets. -/
def TickAggregator.setInterval (agg : TickAggregator) (intervalSeconds : ℚ) :
    TickAggregator × Except String Unit :=
  if intervalSeconds ≤ 0 then (agg, .error "Interval must be positive")
  else (⟨intervalSeconds, [], none⟩, .ok ())

/-- `getInterval`. -/
def TickAggregator.getInterval (agg : TickAggregator) : ℚ := agg.intervalSeconds

/-- Folding a list of ticks through `addTick`, keeping the aggregator. -/
def addTicks (agg : TickAggregator) (l : List TickData) : TickAggregator :=
  l.foldl (fun a t => (a.addTick t).1) agg

/-! ## ReplayEngine (packages/replay-engine/src/ReplayEngine.ts) -/

/-- Playback status. -/
inductive Status where
  | idle
  | playing
  | paused
  | ended
deriving DecidableEq, Repr

/-- `ReplayState` from types.ts. -/
structure ReplayState where
  status : Status
  currentTime : ℚ
  speed : ℚ
  startTime : ℚ
  endTime : ℚ
deriving DecidableEq, Repr

/-- The numeric configuration of `ReplayOptions` (the callback fields are
modelled by returning emitted values from the operations instead). -/
structure ReplayOptions where
  updateInterval : ℚ := 100
  availableSpeeds : List ℚ := [1, 2, 5, 10, 25, 50, 100]
  barInterval : ℚ := 60
deriving DecidableEq, Repr

/-- State of a `ReplayEngine` instance.  `timerActive` models
`playbackTimer !== null`; `lastPlaybackTime` (a wall-clock reading) is not
stored: the elapsed real time is instead passed to `processPlaybackTick`
as an explicit argument. -/
structure ReplayEngine where
  aggregator : TickAggregator
  ticks : List TickData
  currentTickIndex : ℕ
  options : ReplayOptions
  state : ReplayState
  lastBarTime : Option ℚ
  timerActive : Bool
deriving DecidableEq, Repr

/-- `load`: sorts the ticks ascending by timestamp (stably, as JavaScript
`sort` is), resets the cursor and the aggregator, and initialises the state
from the first/last timestamps.  The `TickAggregator` constructor call is
modelled by `freshAggregator`; its positivity check is `TickAggregator.make`
and theorems about `load` assume `0 < opts.barInterval`. -/
def ReplayEngine.load (ticks : List TickData) (opts : ReplayOptions) : ReplayEngine :=
  let sorted := ticks.mergeSort (fun a b => decide (a.timestamp ≤ b.timestamp))
  { aggregator := freshAggregator opts.barInterval
    ticks := sorted
    currentTickIndex := 0
    options := opts
    state :=
      if sorted.isEmpty then
        ⟨.idle, 0, opts.availableSpeeds.headD 1, 0, 0⟩
      else
        ⟨.idle, (sorted.headD defaultTick).timestamp, opts.availableSpeeds.headD 1,
          (sorted.headD defaultTick).timestamp, (sorted.getLastD defaultTick).timestamp⟩
    lastBarTime := none
    timerActive := false }

/-- The binary-search loop of `findTickIndexForTime`: first index whose tick
timestamp is at or after the target. -/
def bsearchLoop (ticks : List TickData) (timestamp : ℚ) (left right : ℕ) : ℕ :=
  if _h : left < right then
    let mid := (left + right) / 2
    if (ticks.getD mid defaultTick).timestamp < timestamp then
      bsearchLoop ticks timestamp (mid + 1) right
    else
      bsearchLoop ticks timestamp left mid
  else left
termination_by right - left
decreasing_by
  · omega
  · omega

/-- `findTickIndexForTime`. -/
def ReplayEngine.findTickIndexForTime (e : ReplayEngine) (timestamp : ℚ) : ℕ :=
  if e.ticks.isEmpty then 0
  else bsearchLoop e.ticks timestamp 0 e.ticks.length

/-- `rebuildBarsToIndex`: resets the aggregator and `lastBarTime`, then replays
ticks `0 ≤ i < index` (and `i < ticks.length`) through `addTick`, recording
each returned bar's time in `lastBarTime`. -/
def ReplayEngine.rebuildBarsToIndex (e : ReplayEngine) (index : ℕ) : ReplayEngine :=
  let r := (e.ticks.take index).foldl
    (fun (p : TickAggregator × Option ℚ) t =>
      let q := p.1.addTick t
      (q.1, some q.2.time))
    (e.aggregator.reset, none)
  { e with aggregator := r.1, lastBarTime := r.2 }

/-- `seekTo`: clamp, binary-search, rebuild, update state, restart the timer
if playback was active. -/
def ReplayEngine.seekTo (e : ReplayEngine) (timestamp : ℚ) : ReplayEngine :=
  if e.ticks.isEmpty then e
  else
    let clampedTime := max e.state.startTime (min e.state.endTime timestamp)
    let idx := e.findTickIndexForTime clampedTime
    let e₁ := { e.rebuildBarsToIndex idx with currentTickIndex := idx }
    let wasPlaying := e₁.state.status = Status.playing
    let newStatus :=
      if wasPlaying then Status.playing
      else if e₁.state.status = Status.ended then Status.paused
      else e₁.state.status
    let e₂ := { e₁ with state := { e₁.state with currentTime := clampedTime, status := newStatus } }
    if wasPlaying then { e₂ with timerActive := true } else e₂

/-- `seekToPercent`. -/
def ReplayEngine.seekToPercent (e : ReplayEngine) (percent : ℚ) : ReplayEngine :=
  let clampedPercent := max 0 (min 100 percent)
  let duration := e.state.endTime - e.state.startTime
  e.seekTo (e.state.startTime + duration * clampedPercent / 100)

/-- `stepForward`. -/
def ReplayEngine.stepForward (e : ReplayEngine) (bars : ℚ) : ReplayEngine :=
  if e.ticks.isEmpty ∨ bars ≤ 0 then e
  else e.seekTo (e.state.currentTime + bars * e.aggregator.getInterval)

/-- `stepBackward`. -/
def ReplayEngine.stepBackward (e : ReplayEngine) (bars : ℚ) : ReplayEngine :=
  if e.ticks.isEmpty ∨ bars ≤ 0 then e
  else e.seekTo (e.state.currentTime - bars * e.aggregator.getInterval)

/-- `setSpeed`: snaps to the closest configured speed.  With an empty
`availableSpeeds` list and a speed outside it, `[].reduce` throws before any
state is touched, so the engine state is returned unchanged. -/
def ReplayEngine.setSpeed (e : ReplayEngine) (speed : ℚ) : ReplayEngine :=
  let snapped : Option ℚ :=
    if speed ∈ e.options.availableSpeeds then some speed
    else
      match e.options.availableSpeeds with
      | [] => none
      | h :: t =>
        some (t.foldl (fun prev curr => if |curr - speed| < |prev - speed| then curr else prev) h)
  match snapped with
  | none => e
  | some s =>
    let wasPlaying := e.state.status = Status.playing
    { e with
      state := { e.state with speed := s }
      timerActive := if wasPlaying then true else e.timerActive }

/-- `play`. -/
def ReplayEngine.play (e : ReplayEngine) : ReplayEngine :=
  if e.ticks.isEmpty then e
  else
    let e₁ := if e.state.status = Status.ended then e.seekTo e.state.startTime else e
    if e₁.state.status = Status.playing then e₁
    else { e₁ with state := { e₁.state with status := Status.playing }, timerActive := true }

/-- `pause`. -/
def ReplayEngine.pause (e : ReplayEngine) : ReplayEngine :=
  if e.state.status ≠ Status.playing then e
  else { e with timerActive := false, state := { e.state with status := Status.paused } }

/-- `stop`. -/
def ReplayEngine.stop (e : ReplayEngine) : ReplayEngine :=
  if e.ticks.isEmpty then { e with timerActive := false, state := { e.state with status := Status.idle } }
  else
    { e with
      timerActive := false
      currentTickIndex := 0
      aggregator := e.aggregator.reset
      lastBarTime := none
      state := { e.state with status := Status.idle, currentTime := e.state.startTime } }

/-- `getState` / `getCurrentBar` / `getBarsUntil` accessors. -/
def ReplayEngine.getState (e : ReplayEngine) : ReplayState := e.state

/-- Engine-level `getCurrentBar`. -/
def ReplayEngine.getCurrentBar (e : ReplayEngine) : Option ReplayableBar :=
  e.aggregator.getCurrentBar

/-- Engine-level `getBarsUntil`. -/
def ReplayEngine.getBarsUntil (e : ReplayEngine) (timestamp : ℚ) : List ReplayableBar :=
  e.aggregator.getBarsUntil timestamp

/-- `processTick`: feeds one tick to the aggregator, and emits (returns) the
completed bar of the previous bucket exactly when the bucket time of the
returned bar differs from `lastBarTime`. -/
def ReplayEngine.processTick (e : ReplayEngine) (tick : TickData) :
    ReplayEngine × Option ReplayableBar :=
  let previousBarTime := e.lastBarTime
  let r := e.aggregator.addTick tick
  let currentBarTime := r.2.time
  let emitted : Option ReplayableBar :=
    match previousBarTime with
    | some t => if currentBarTime ≠ t then mapFind r.1.bars t else none
    | none => none
  ({ e with aggregator := r.1, lastBarTime := some currentBarTime }, emitted)

/-- The drain loop of `processPlaybackTick`: processes every remaining tick
whose timestamp is at most `targetTime`, returning the engine and whether any
tick was processed. -/
def ReplayEngine.drain (e : ReplayEngine) (targetTime : ℚ) : ReplayEngine × Bool :=
  if h : e.currentTickIndex < e.ticks.length ∧
      (e.ticks.getD e.currentTickIndex defaultTick).timestamp ≤ targetTime then
    let tick := e.ticks.getD e.currentTickIndex defaultTick
    let e' := (e.processTick tick).1
    let e'' := { e' with currentTickIndex := e'.currentTickIndex + 1 }
    ((e''.drain targetTime).1, true)
  else (e, false)
termination_by e.ticks.length - e.currentTickIndex
decreasing_by
  simp only [ReplayEngine.processTick]
  omega

/-- Body of the repeating playback timer (`processPlaybackTick`), with the
elapsed real time (in seconds, `(Date.now() - lastPlaybackTime)/1000`) as an
explicit argument. -/
def ReplayEngine.processPlaybackTick (e : ReplayEngine) (realTimeElapsed : ℚ) : ReplayEngine :=
  let simulatedTimeElapsed := realTimeElapsed * e.state.speed
  let targetTime := e.state.currentTime + simulatedTimeElapsed
  let r := e.drain targetTime
  let e₁ := r.1
  let ticksProcessed := r.2
  let newTime := min targetTime e₁.state.endTime
  if e₁.ticks.length ≤ e₁.currentTickIndex then
    { e₁ with
      timerActive := false
      state := { e₁.state with currentTime := e₁.state.endTime, status := Status.ended } }
  else if ticksProcessed = true ∨ |newTime - e₁.state.currentTime| > 1 / 1000 then
    { e₁ with state := { e₁.state with currentTime := newTime } }
  else e₁

/-- The public operations of the engine after `load`, plus one firing of the
playback timer (carrying the elapsed real time). -/
inductive Op where
  | play
  | pause
  | stop
  | seekTo (timestamp : ℚ)
  | seekToPercent (percent : ℚ)
  | stepForward (bars : ℚ)
  | stepBackward (bars : ℚ)
  | setSpeed (speed : ℚ)
  | timerFire (realTimeElapsed : ℚ)
deriving DecidableEq, Repr

/-- Interpret one operation. -/
def applyOp (e : ReplayEngine) : Op → ReplayEngine
  | .play => e.play
  | .pause => e.pause
  | .stop => e.stop
  | .seekTo t => e.seekTo t
  | .seekToPercent p => e.seekToPercent p
  | .stepForward n => e.stepForward n
  | .stepBackward n => e.stepBackward n
  | .setSpeed s => e.setSpeed s
  | .timerFire dt => e.processPlaybackTick dt

/-- Interpret a sequence of operations. -/
def applyOps (e : ReplayEngine) (ops : List Op) : ReplayEngine :=
  ops.foldl applyOp e

/-- Wall-clock model: the real time elapsed between two firings of the
playback timer is nonnegative. -/
def opElapsedNonneg : Op → Prop
  | .timerFire dt => 0 ≤ dt
  | _ => True

/-! ## Binary session decoder (app/src/utils/api.js)

Buffers are lists of bytes (naturals below 256).  A `DataView` read past the
end of the buffer throws a JavaScript `RangeError`; this is the
`DecodeErr.rangeError` constructor.  The explicit
`throw new Error('Invalid binary format: ...')` on a magic mismatch is
`DecodeErr.formatError`. -/

/-- Errors a decode can throw. -/
inductive DecodeErr where
  | formatError
  | rangeError
deriving DecidableEq, Repr

/-- The expected magic marker: the bytes of the ASCII string `TICK`. -/
def tickMagic : List ℕ := [84, 73, 67, 75]

/-- Read `n` bytes at absolute offset `off`; out-of-range reads throw, as
`DataView` accessors do. -/
def readBytes (buf : List ℕ) (off n : ℕ) : Except DecodeErr (List ℕ) :=
  if off + n ≤ buf.length then .ok ((buf.drop off).take n) else .error .rangeError

/-- Little-endian value of a byte list. -/
def leValue (bytes : List ℕ) : ℕ :=
  bytes.foldr (fun b acc => b + 256 * acc) 0

/-- Unsigned little-endian read of `n` bytes (`getUint8/16/32`, `getBigUint64`). -/
def readUIntLE (buf : List ℕ) (off n : ℕ) : Except DecodeErr ℕ :=
  (readBytes buf off n).map leValue

/-- Reinterpret an unsigned value as a two's-complement signed value of the
given bit width. -/
def toSigned (bits v : ℕ) : ℤ :=
  if 2 * v < 2 ^ bits then (v : ℤ) else (v : ℤ) - 2 ^ bits

/-- Signed little-endian read of `n` bytes (`getInt32`, `getBigInt64`). -/
def readIntLE (buf : List ℕ) (off n : ℕ) : Except DecodeErr ℤ :=
  (readBytes buf off n).map (fun bytes => toSigned (8 * n) (leValue bytes))

/-- One decoded row of the version-2 (Databento MBP-1) format.  Timestamps are
kept numerically: `timestampMs` is the value `Number(initial + delta) / 1000`
from which the row's ISO timestamp string is formed.  `action` and `side` are
kept as their raw ASCII bytes (the source converts them to one-character
strings).  The fixed-point price/size fields carry their descaled values (the
source additionally formats them with `toFixed`, which does not change the
value at these scales). -/
structure V2Row where
  timestampMs : ℚ
  rtype : ℕ
  publisherId : ℕ
  instrumentId : ℕ
  action : ℕ
  side : ℕ
  depth : ℕ
  price : ℚ
  size : ℚ
  flags : ℕ
  tsInDelta : ℤ
  sequence : ℕ
  priceBid : ℚ
  priceAsk : ℚ
  sizeBid : ℚ
  sizeAsk : ℚ
  bidCt : ℕ
  askCt : ℕ
deriving DecidableEq, Repr

/-- Parse one 64-byte row of the version-2 format at absolute offset
`rowOffset`.  Note the absolute timestamp is `initial + delta` for this row's
own delta — deltas are not accumulated across rows in this format. -/
def parseV2Row (buf : List ℕ) (initialTimestampUs : ℕ) (rowOffset : ℕ) :
    Except DecodeErr V2Row := do
  let deltaTimeUs ← readIntLE buf rowOffset 8
  let rtype ← readUIntLE buf (rowOffset + 8) 1
  let publisherId ← readUIntLE buf (rowOffset + 9) 2
  let instrumentId ← readUIntLE buf (rowOffset + 11) 4
  let action ← readUIntLE buf (rowOffset + 15) 1
  let side ← readUIntLE buf (rowOffset + 16) 1
  let depth ← readUIntLE buf (rowOffset + 17) 1
  let priceScaled ← readIntLE buf (rowOffset + 18) 8
  let sizeScaled ← readIntLE buf (rowOffset + 26) 4
  let flags ← readUIntLE buf (rowOffset + 30) 2
  let tsInDelta ← readIntLE buf (rowOffset + 32) 4
  let sequence ← readUIntLE buf (rowOffset + 36) 4
  let priceBidScaled ← readIntLE buf (rowOffset + 40) 4
  let priceAskScaled ← readIntLE buf (rowOffset + 44) 4
  let sizeBidScaled ← readIntLE buf (rowOffset + 48) 4
  let sizeAskScaled ← readIntLE buf (rowOffset + 52) 4
  let bidCt ← readUIntLE buf (rowOffset + 56) 4
  let askCt ← readUIntLE buf (rowOffset + 60) 4
  let absoluteTimestampUs : ℤ := (initialTimestampUs : ℤ) + deltaTimeUs
  return {
    timestampMs := (absoluteTimestampUs : ℚ) / 1000
    rtype := rtype
    publisherId := publisherId
    instrumentId := instrumentId
    action := action
    side := side
    depth := depth
    price := (priceScaled : ℚ) / 100000
    size := (sizeScaled : ℚ) / 100
    flags := flags
    tsInDelta := tsInDelta
    sequence := sequence
    priceBid := (priceBidScaled : ℚ) / 100000
    priceAsk := (priceAskScaled : ℚ) / 100000
    sizeBid := (sizeBidScaled : ℚ) / 100
    sizeAsk := (sizeAskScaled : ℚ) / 100
    bidCt := bidCt
    askCt := askCt }

/-- Parse `count` rows of the version-2 format starting at offset `off`
(the loop `for (let i = 0; i < numRows; i++)` with `rowOffset = off + 64*i`). -/
def parseV2Rows (buf : List ℕ) (initialTimestampUs : ℕ) :
    ℕ → ℕ → Except DecodeErr (List V2Row)
  | 0, _ => .ok []
  | count + 1, off => do
    let row ← parseV2Row buf initialTimestampUs off
    let rest ← parseV2Rows buf initialTimestampUs count (off + 64)
    return row :: rest

/-- `parseBinaryDataV2`.  The magic check happens after the four header reads,
exactly as in the source; a version other than 2 only logs a warning. -/
def parseBinaryDataV2 (buf : List ℕ) : Except DecodeErr (List V2Row) := do
  let magic ← readBytes buf 0 4
  let _version ← readUIntLE buf 4 2
  let numRows ← readUIntLE buf 6 4
  let initialTimestampUs ← readUIntLE buf 10 8
  if magic ≠ tickMagic then throw DecodeErr.formatError
  parseV2Rows buf initialTimestampUs numRows 18

/-- JavaScript `parseInt` restricted to the non-empty all-digit strings that
actually occur in a publisher map; `none` models `NaN`. -/
def parseDigits (bs : List ℕ) : Option ℕ :=
  if bs ≠ [] ∧ bs.all (fun b => 48 ≤ b ∧ b ≤ 57) then
    some (bs.foldl (fun acc b => acc * 10 + (b - 48)) 0)
  else none

/-- Parse the header's publisher map string `"idx:pubId,idx:pubId,..."` (as
bytes; 44 is `,`, 58 is `:`).  Pairs whose pieces do not parse as numbers are
dropped (in the source they become `NaN` entries that no lookup returns). -/
def parsePublisherMap (bs : List ℕ) : List (ℕ × ℕ) :=
  (bs.splitOn 44).filterMap (fun pair =>
    match pair.splitOn 58 with
    | idx :: pubId :: _ =>
      match parseDigits idx, parseDigits pubId with
      | some i, some p => some (i, p)
      | _, _ => none
    | _ => none)

/-- Lookup of `publisherMap[idx]`; `none` models `undefined`. -/
def lookupPublisher (pmap : List (ℕ × ℕ)) (idx : ℕ) : Option ℕ :=
  (pmap.find? (fun p => p.1 = idx)).map (·.2)

/-- One per-exchange snapshot of a version-3 sample. -/
structure V3Exchange where
  publisher_id : Option ℕ
  publisher_index : ℕ
  bid_price : ℚ
  ask_price : ℚ
  bid_size : ℚ
  ask_size : ℚ
deriving DecidableEq, Repr

/-- One decoded sample of the version-3 (NBBO) format.  `timestampMs` is the
cumulative timestamp in milliseconds (the source renders it as an ISO string)
and `adjustedTimestamp` is the same value in seconds.  `timeDeltaMs` records
the raw decoded delta of this sample; the JavaScript object does not carry it
(the source folds it into the cumulative timestamp immediately), it is kept
here so that theorems can speak about the delta encoding. -/
structure V3Sample where
  timeDeltaMs : ℤ
  timestampMs : ℚ
  adjustedTimestamp : ℚ
  bid_price : ℚ
  ask_price : ℚ
  bid_size : ℚ
  ask_size : ℚ
  best_bid_publisher : Option ℕ
  best_ask_publisher : Option ℕ
  exchanges : List V3Exchange
deriving DecidableEq, Repr

/-- Parse `count` exchange entries starting at `off`; returns the entries and
the offset just past them. -/
def parseV3Exchanges (buf : List ℕ) (pmap : List (ℕ × ℕ)) :
    ℕ → ℕ → Except DecodeErr (List V3Exchange × ℕ)
  | 0, off => .ok ([], off)
  | count + 1, off => do
    let publisherIdx ← readUIntLE buf off 1
    let bid ← readIntLE buf (off + 1) 4
    let ask ← readIntLE buf (off + 5) 4
    let bidSize ← readUIntLE buf (off + 9) 4
    let askSize ← readUIntLE buf (off + 13) 4
    let rest ← parseV3Exchanges buf pmap count (off + 17)
    return (⟨lookupPublisher pmap publisherIdx, publisherIdx,
      (bid : ℚ) / 100000, (ask : ℚ) / 100000,
      (bidSize : ℚ) / 100, (askSize : ℚ) / 100⟩ :: rest.1, rest.2)

/-- Parse `count` samples of the version-3 format starting at `off`, with
`cumulativeTimestampMs` accumulated across samples. -/
def parseV3Samples (buf : List ℕ) (pmap : List (ℕ × ℕ)) :
    ℕ → ℕ → ℚ → Except DecodeErr (List V3Sample)
  | 0, _, _ => .ok []
  | count + 1, off, cumulativeTimestampMs => do
    let timeDeltaMs ← readIntLE buf off 4
    let cum := cumulativeTimestampMs + (timeDeltaMs : ℚ)
    let nbboBid ← readIntLE buf (off + 4) 4
    let nbboAsk ← readIntLE buf (off + 8) 4
    let nbboBidSize ← readIntLE buf (off + 12) 4
    let nbboAskSize ← readIntLE buf (off + 16) 4
    let bestBidPub ← readUIntLE buf (off + 20) 1
    let bestAskPub ← readUIntLE buf (off + 21) 1
    let numExchanges ← readUIntLE buf (off + 22) 1
    let ex ← parseV3Exchanges buf pmap numExchanges (off + 23)
    let rest ← parseV3Samples buf pmap count ex.2 cum
    return (⟨timeDeltaMs, cum, cum / 1000,
      (nbboBid : ℚ) / 100000, (nbboAsk : ℚ) / 100000,
      (nbboBidSize : ℚ) / 100, (nbboAskSize : ℚ) / 100,
      lookupPublisher pmap bestBidPub, lookupPublisher pmap bestAskPub,
      ex.1⟩ :: rest)

/-- `parseBinaryDataV3`.  The magic bytes are read into a variable that is
never checked against `tickMagic` — the source has no magic validation on this
path.  `buffer.slice` clamps, so a short publisher map string is not an
error. -/
def parseBinaryDataV3 (buf : List ℕ) : Except DecodeErr (List V3Sample) := do
  let _magic ← readBytes buf 0 4
  let _version ← readUIntLE buf 4 2
  let _resampleIntervalMs ← readUIntLE buf 6 2
  let numSamples ← readUIntLE buf 8 4
  let initialTimestampUs ← readUIntLE buf 12 8
  let publisherMapLength ← readUIntLE buf 20 2
  let pmap := parsePublisherMap ((buf.drop 22).take publisherMapLength)
  parseV3Samples buf pmap numSamples (22 + publisherMapLength)
    ((initialTimestampUs : ℚ) / 1000)

/-- Rows decoded from a session buffer: one of the two wire formats. -/
inductive SessionRows where
  | v2 (rows : List V2Row)
  | v3 (rows : List V3Sample)
deriving DecidableEq, Repr

/-- The decode dispatch of `loadSessionData` (after decompression): the
version is read at offset 4 and routes to the matching parser.  (On the V2
path the source additionally post-processes the rows with
`preprocessTimestamps`, which neither throws nor changes the row count.) -/
def decodeSessionBuffer (buf : List ℕ) : Except DecodeErr SessionRows := do
  let version ← readUIntLE buf 4 2
  if version = 3 then (parseBinaryDataV3 buf).map SessionRows.v3
  else (parseBinaryDataV2 buf).map SessionRows.v2

/-! ## Order-book view (app/src/hooks/useOrderBook.js)

The React state `exchangeState` is an object keyed by `publisher_id`; it is
modelled as a list of entries.  `parseFloat` of the decoded fixed-point
strings is the identity on the underlying rational values. -/

/-- One entry of `exchangeState`. -/
structure OrderBookEntry where
  publisher_id : ℕ
  bid_price : ℚ
  ask_price : ℚ
  bid_size : ℚ
  ask_size : ℚ
  timestamp : ℚ
deriving DecidableEq, Repr

/-- One exchange snapshot as consumed by `updateOrderBook`. -/
structure ExchangeSnapshot where
  publisher_id : ℕ
  bid_price : ℚ
  ask_price : ℚ
  bid_size : ℚ
  ask_size : ℚ
deriving DecidableEq, Repr

/-- Upsert of `updated[key] = {...}` on the entry list. -/
def upsertEntry (st : List OrderBookEntry) (entry : OrderBookEntry) : List OrderBookEntry :=
  if st.any (fun e => e.publisher_id = entry.publisher_id) then
    st.map (fun e => if e.publisher_id = entry.publisher_id then entry else e)
  else st ++ [entry]

/-- `updateOrderBook`: a no-op on an empty snapshot list, otherwise upserts
every snapshot (last write wins).  `now` models `Date.now()`. -/
def updateOrderBook (st : List OrderBookEntry) (now : ℚ)
    (exchanges : List ExchangeSnapshot) : List OrderBookEntry :=
  if exchanges.isEmpty then st
  else exchanges.foldl (fun acc ex =>
    upsertEntry acc ⟨ex.publisher_id, ex.bid_price, ex.ask_price, ex.bid_size, ex.ask_size, now⟩) st

/-- One price level of the returned book. -/
structure BookLevel where
  publisher_id : ℕ
  price : ℚ
  size : ℚ
deriving DecidableEq, Repr

/-- `getOrderBook`: filter, project, and sort (bids descending, asks
ascending by price). -/
def getOrderBook (st : List OrderBookEntry) (minSize : ℚ) :
    List BookLevel × List BookLevel :=
  let bids := ((st.filter (fun e => decide (e.bid_price > 0 ∧ e.bid_size ≥ minSize))).map
      (fun e => BookLevel.mk e.publisher_id e.bid_price e.bid_size)).mergeSort
      (fun a b => decide (b.price ≤ a.price))
  let asks := ((st.filter (fun e => decide (e.ask_price > 0 ∧ e.ask_size ≥ minSize))).map
      (fun e => BookLevel.mk e.publisher_id e.ask_price e.ask_size)).mergeSort
      (fun a b => decide (a.price ≤ b.price))
  (bids, asks)

/-- `clearOrderBook`. -/
def clearOrderBook : List OrderBookEntry := []

/-! ## Auxiliary definitions used by the theorems -/

/-- The bar update performed by `addTick` on an existing bar of the bucket. -/
def updateBar (bar : ReplayableBar) (t : TickData) : ReplayableBar :=
  { bar with
    high := max bar.high t.price
    low := min bar.low t.price
    close := t.price
    volume := bar.volume + t.volume.getD 0 }

/-- Default bar, used with `Option.getD` to avoid dependent indexing. -/
def defaultBar : ReplayableBar := ⟨0, 0, 0, 0, 0, 0⟩

/-- The current bar of an aggregator, defaulted. -/
def currentBarD (agg : TickAggregator) : ReplayableBar :=
  agg.getCurrentBar.getD defaultBar

/-- Well-formedness of the engine's aggregator bookkeeping: every stored bar
carries its own bucket key as `time`, and `lastBarTime` (when set) points to a
stored bar.  This holds in every state the engine actually reaches: bars are
only created by `addTick` (which keys them by their `time`) and `lastBarTime`
is only ever set to the time of a bar just returned by `addTick`. -/
def AggBarsInv (e : ReplayEngine) : Prop :=
  (∀ p ∈ e.aggregator.bars, p.2.time = p.1) ∧
  (∀ t, e.lastBarTime = some t → (mapFind e.aggregator.bars t).isSome = true)

/-- A concrete engine used to witness the speed-snapping behaviour. -/
def c7Engine : ReplayEngine :=
  { aggregator := freshAggregator 60
    ticks := [⟨0, 1, none⟩]
    currentTickIndex := 0
    options := { availableSpeeds := [1, 5, 10] }
    state := ⟨.idle, 0, 1, 0, 0⟩
    lastBarTime := none
    timerActive := false }

/-- A concrete engine state used to witness bar emission: one closed bar in
bucket `0`, recorded in `lastBarTime`. -/
def c9Engine : ReplayEngine :=
  { aggregator := ⟨60, [(0, ⟨0, 1, 1, 1, 1, 0⟩)], some 0⟩
    ticks := []
    currentTickIndex := 0
    options := {}
    state := ⟨.idle, 0, 1, 0, 0⟩
    lastBarTime := some 0
    timerActive := false }

/-- A tick in bucket `60`, used against `c9Engine`. -/
def c9Tick : TickData := ⟨60, 2, none⟩

/-- Total unsigned little-endian read (no bounds check); agrees with
`readUIntLE` whenever the read is in bounds. -/
def leValU (buf : List ℕ) (off n : ℕ) : ℕ := leValue ((buf.drop off).take n)

/-- Total signed little-endian read. -/
def leValS (buf : List ℕ) (off n : ℕ) : ℤ := toSigned (8 * n) (leValU buf off n)

/-- The value `parseV2Row` decodes at `off` when all its reads are in bounds. -/
def v2rowAt (buf : List ℕ) (base off : ℕ) : V2Row :=
  { timestampMs := (((base : ℤ) + leValS buf off 8 : ℤ) : ℚ) / 1000
    rtype := leValU buf (off + 8) 1
    publisherId := leValU buf (off + 9) 2
    instrumentId := leValU buf (off + 11) 4
    action := leValU buf (off + 15) 1
    side := leValU buf (off + 16) 1
    depth := leValU buf (off + 17) 1
    price := (leValS buf (off + 18) 8 : ℚ) / 100000
    size := (leValS buf (off + 26) 4 : ℚ) / 100
    flags := leValU buf (off + 30) 2
    tsInDelta := leValS buf (off + 32) 4
    sequence := leValU buf (off + 36) 4
    priceBid := (leValS buf (off + 40) 4 : ℚ) / 100000
    priceAsk := (leValS buf (off + 44) 4 : ℚ) / 100000
    sizeBid := (leValS buf (off + 48) 4 : ℚ) / 100
    sizeAsk := (leValS buf (off + 52) 4 : ℚ) / 100
    bidCt := leValU buf (off + 56) 4
    askCt := leValU buf (off + 60) 4 }

/-- The rows `parseV2Rows` decodes when every row is in bounds. -/
def v2rowsAt (buf : List ℕ) (base : ℕ) : ℕ → ℕ → List V2Row
  | 0, _ => []
  | n + 1, off => v2rowAt buf base off :: v2rowsAt buf base n (off + 64)

/-- Default row, used with `List.getD` to avoid dependent indexing. -/
def defaultV2Row : V2Row := v2rowAt [] 0 0

/-- Default sample, used with `List.getD` to avoid dependent indexing. -/
def defaultV3Sample : V3Sample := ⟨0, 0, 0, 0, 0, 0, 0, none, none, []⟩

/-- The row count the version-2 header declares. -/
def v2NumRows (buf : List ℕ) : ℕ := leValU buf 6 4

/-- The base timestamp (µs) of the version-2 header. -/
def v2BaseUs (buf : List ℕ) : ℕ := leValU buf 10 8

/-- The sample count the version-3 header declares. -/
def v3NumSamples (buf : List ℕ) : ℕ := leValU buf 8 4

/-- The base timestamp (ms) of the version-3 header. -/
def v3BaseMs (buf : List ℕ) : ℚ := (leValU buf 12 8 : ℚ) / 1000

/-- The publisher-map byte length of the version-3 header. -/
def v3PmapLen (buf : List ℕ) : ℕ := leValU buf 20 2

/-- Offset of the first version-3 sample. -/
def v3HeaderEnd (buf : List ℕ) : ℕ := 22 + v3PmapLen buf

/-- The parsed publisher map of a version-3 buffer. -/
def v3Pmap (buf : List ℕ) : List (ℕ × ℕ) :=
  parsePublisherMap ((buf.drop 22).take (v3PmapLen buf))

/-- Little-endian encoding of `v` in `n` bytes (used to build test buffers). -/
def leBytes : ℕ → ℕ → List ℕ
  | 0, _ => []
  | n + 1, v => (v % 256) :: leBytes n (v / 256)

/-- A version-3 buffer whose magic is `JUNK` instead of `TICK`, carrying one
sample with no exchange entries. -/
def c4Buf : List ℕ :=
  [74, 85, 78, 75] ++ [3, 0] ++ [100, 0] ++ [1, 0, 0, 0] ++ leBytes 8 0 ++ [0, 0]
    ++ leBytes 4 1000 ++ leBytes 4 500000 ++ leBytes 4 600000
    ++ leBytes 4 100 ++ leBytes 4 200 ++ [0, 0, 0]

/-- A version-2 buffer whose magic is `JUNK` (header only). -/
def c4BadV2Buf : List ℕ := [74, 85, 78, 75] ++ [2, 0] ++ [0, 0, 0, 0] ++ leBytes 8 0

/-- A version-2 header declaring one row but carrying no row bytes. -/
def c5v2Buf : List ℕ := tickMagic ++ [2, 0] ++ [1, 0, 0, 0] ++ leBytes 8 0

/-- A version-3 header declaring one sample but carrying no sample bytes. -/
def c5v3Buf : List ℕ := tickMagic ++ [3, 0] ++ [100, 0] ++ [1, 0, 0, 0] ++ leBytes 8 0 ++ [0, 0]

/-- A 64-byte version-2 row whose delta field holds `deltaUs` and whose other
fields are zero. -/
def c6Row (deltaUs : ℕ) : List ℕ := leBytes 8 deltaUs ++ List.replicate 56 0

/-- A version-2 buffer with base timestamp 1,000,000 µs and two rows with
non-negative deltas 2,000,000 µs and 1,000,000 µs — in that order. -/
def c6Buf : List ℕ :=
  tickMagic ++ [2, 0] ++ [2, 0, 0, 0] ++ leBytes 8 1000000 ++ c6Row 2000000 ++ c6Row 1000000

/-- A well-formed version-3 buffer with one sample and no exchange entries. -/
def c6v3Buf : List ℕ :=
  tickMagic ++ [3, 0] ++ [100, 0] ++ [1, 0, 0, 0] ++ leBytes 8 2000000 ++ [0, 0]
    ++ leBytes 4 500 ++ leBytes 4 100000 ++ leBytes 4 200000
    ++ leBytes 4 100 ++ leBytes 4 200 ++ [0, 0, 0]

/-- The samples decoded from `c6v3Buf`. -/
def c6v3Rows : List V3Sample := (parseBinaryDataV3 c6v3Buf).toOption.getD []

/-- The C3 state invariant, relative to the endpoints fixed at load time:
the endpoints never change, the current time stays clamped between them, the
speed stays positive (all configured speeds being positive), and the loaded
tick array stays non-empty. -/
def EngineInv (s tEnd : ℚ) (e : ReplayEngine) : Prop :=
  e.state.startTime = s ∧ e.state.endTime = tEnd ∧
  s ≤ e.state.currentTime ∧ e.state.currentTime ≤ tEnd ∧
  0 < e.state.speed ∧ (∀ v ∈ e.options.availableSpeeds, 0 < v) ∧ e.ticks ≠ []

/-- The ticks and options of `c1Engine`-style counterexample runs: two ticks,
one exactly at the sought timestamp. -/
def c1Ticks : List TickData := [⟨0, 1, none⟩, ⟨60, 2, none⟩]

/-- Ticks for the C1 witness: no tick at the sought timestamp `60`. -/
def c1wTicks : List TickData := [⟨0, 1, none⟩, ⟨120, 2, none⟩]

/-! # Theorems -/

/-! ## Map model lemmas -/

theorem mapFind_mapSet (m : BarMap) (k k' : ℚ) (v : ReplayableBar) :
    mapFind (mapSet m k v) k' = if k = k' then some v else mapFind m k' := by
  induction m with
  | nil => simp [mapSet, mapFind]
  | cons p rest ih =>
    obtain ⟨pk, pv⟩ := p
    rw [show mapSet ((pk, pv) :: rest) k v
        = if pk = k then (k, v) :: rest else (pk, pv) :: mapSet rest k v from rfl]
    by_cases h1 : pk = k
    · subst h1
      rw [if_pos rfl,
        show mapFind ((pk, v) :: rest) k' = if pk = k' then some v else mapFind rest k' from rfl,
        show mapFind ((pk, pv) :: rest) k' = if pk = k' then some pv else mapFind rest k' from rfl]
      split_ifs <;> simp_all
    · rw [if_neg h1,
        show mapFind ((pk, pv) :: mapSet rest k v) k'
          = if pk = k' then some pv else mapFind (mapSet rest k v) k' from rfl,
        show mapFind ((pk, pv) :: rest) k' = if pk = k' then some pv else mapFind rest k' from rfl,
        ih]
      split_ifs <;> simp_all

theorem mapFind_mem {m : BarMap} {k : ℚ} {b : ReplayableBar}
    (h : mapFind m k = some b) : (k, b) ∈ m := by
  induction m with
  | nil => simp [mapFind] at h
  | cons p rest ih =>
    obtain ⟨pk, pv⟩ := p
    simp only [mapFind] at h
    split_ifs at h with hpk
    · subst hpk
      rw [Option.some.injEq] at h
      subst h
      exact List.mem_cons_self _ _
    · exact List.mem_cons_of_mem _ (ih h)

/-! ## C10: aggregator interval validation -/

/-- C10: for every `intervalSeconds ≤ 0`, both the `TickAggregator`
constructor and `setInterval` throw `Error('Interval must be positive')`;
`setInterval` leaves the aggregator state (bars and interval) unchanged. -/
theorem c10_interval_must_be_positive (intervalSeconds : ℚ) (agg : TickAggregator)
    (h : intervalSeconds ≤ 0) :
    TickAggregator.make intervalSeconds = .error "Interval must be positive" ∧
    agg.setInterval intervalSeconds = (agg, .error "Interval must be positive") := by
  constructor
  · simp [TickAggregator.make, h]
  · simp [TickAggregator.setInterval, h]

/-- Witness for C10 at `intervalSeconds = 0` on a fresh 60-second aggregator. -/
theorem c10_witness :
    TickAggregator.make 0 = .error "Interval must be positive" ∧
    (freshAggregator 60).setInterval 0 = (freshAggregator 60, .error "Interval must be positive") :=
  c10_interval_must_be_positive 0 (freshAggregator 60) (by norm_num)

/-! ## C7: speed snapping -/

theorem foldl_closest (s : ℚ) :
    ∀ (t : List ℚ) (h : ℚ),
      (t.foldl (fun prev curr => if |curr - s| < |prev - s| then curr else prev) h) ∈ h :: t ∧
      ∀ v ∈ h :: t,
        |(t.foldl (fun prev curr => if |curr - s| < |prev - s| then curr else prev) h) - s|
          ≤ |v - s| := by
  intro t
  induction t with
  | nil =>
    intro h
    refine ⟨List.mem_cons_self _ _, ?_⟩
    intro v hv
    simp only [List.mem_cons, List.not_mem_nil, or_false] at hv
    subst hv
    exact le_refl _
  | cons c t ih =>
    intro h
    simp only [List.foldl_cons]
    obtain ⟨hmem, hmin⟩ := ih (if |c - s| < |h - s| then c else h)
    have hstep_le_h : |(if |c - s| < |h - s| then c else h) - s| ≤ |h - s| := by
      split
      · exact le_of_lt (by assumption)
      · exact le_refl _
    have hstep_le_c : |(if |c - s| < |h - s| then c else h) - s| ≤ |c - s| := by
      split
      · exact le_refl _
      · exact le_of_not_lt (by assumption)
    constructor
    · rcases List.mem_cons.mp hmem with h1 | h1
      · rw [h1]
        split
        · exact List.mem_cons_of_mem _ (List.mem_cons_self _ _)
        · exact List.mem_cons_self _ _
      · exact List.mem_cons_of_mem _ (List.mem_cons_of_mem _ h1)
    · intro v hv
      have hfold := hmin _ (List.mem_cons_self _ _)
      rcases List.mem_cons.mp hv with rfl | hv'
      · exact le_trans hfold hstep_le_h
      · rcases List.mem_cons.mp hv' with rfl | hv''
        · exact le_trans hfold hstep_le_c
        · exact hmin _ (List.mem_cons_of_mem _ hv'')

theorem setSpeed_snaps_closest (e : ReplayEngine) (s : ℚ)
    (h : e.options.availableSpeeds ≠ []) :
    (e.setSpeed s).state.speed ∈ e.options.availableSpeeds ∧
    ∀ v ∈ e.options.availableSpeeds, |(e.setSpeed s).state.speed - s| ≤ |v - s| := by
  by_cases hmem : s ∈ e.options.availableSpeeds
  · have hs : (e.setSpeed s).state.speed = s := by
      simp [ReplayEngine.setSpeed, hmem]
    rw [hs]
    refine ⟨hmem, fun v hv => ?_⟩
    simp only [sub_self, abs_zero]
    exact abs_nonneg (v - s)
  · rcases hls : e.options.availableSpeeds with _ | ⟨hd, tl⟩
    · exact absurd hls h
    · have hmem' : ¬(s = hd ∨ s ∈ tl) := by
        rw [hls] at hmem
        simpa [List.mem_cons] using hmem
      have hs : (e.setSpeed s).state.speed
          = tl.foldl (fun prev curr => if |curr - s| < |prev - s| then curr else prev) hd := by
        simp [ReplayEngine.setSpeed, hls, hmem']
      rw [hs]
      exact foldl_closest s tl hd

/-- C7: `setSpeed(s)` always results in an effective speed that is a member of
the configured non-empty `availableSpeeds` minimizing the distance to `s`. -/
theorem c7_setSpeed_snaps_to_closest (e : ReplayEngine) (s : ℚ)
    (h : e.options.availableSpeeds ≠ []) :
    (e.setSpeed s).state.speed ∈ e.options.availableSpeeds ∧
    ∀ v ∈ e.options.availableSpeeds, |(e.setSpeed s).state.speed - s| ≤ |v - s| :=
  setSpeed_snaps_closest e s h

/-- Witness for C7: `setSpeed(7)` with `availableSpeeds = [1, 5, 10]` snaps to
`5`, which is a closest member. -/
theorem c7_witness :
    (c7Engine.setSpeed 7).state.speed ∈ c7Engine.options.availableSpeeds ∧
    (∀ v ∈ c7Engine.options.availableSpeeds, |(c7Engine.setSpeed 7).state.speed - 7| ≤ |v - 7|) ∧
    (c7Engine.setSpeed 7).state.speed = 5 := by
  obtain ⟨h1, h2⟩ := c7_setSpeed_snaps_to_closest c7Engine 7 (by simp [c7Engine])
  refine ⟨h1, h2, ?_⟩
  norm_num [ReplayEngine.setSpeed, c7Engine]

/-! ## C2: single-bucket OHLCV aggregation -/

theorem addTicks_cons (agg : TickAggregator) (t : TickData) (l : List TickData) :
    addTicks agg (t :: l) = addTicks (agg.addTick t).1 l := rfl

theorem foldl_updateBar_time (l : List TickData) :
    ∀ b : ReplayableBar, (l.foldl updateBar b).time = b.time := by
  induction l with
  | nil => intro b; rfl
  | cons t l ih => intro b; exact ih (updateBar b t)

theorem foldl_updateBar_open (l : List TickData) :
    ∀ b : ReplayableBar, (l.foldl updateBar b).open_ = b.open_ := by
  induction l with
  | nil => intro b; rfl
  | cons t l ih => intro b; exact ih (updateBar b t)

theorem foldl_updateBar_close (l : List TickData) :
    ∀ b : ReplayableBar, l ≠ [] →
      (l.foldl updateBar b).close = (l.getLastD defaultTick).price := by
  induction l with
  | nil => intro b hne; exact absurd rfl hne
  | cons t l ih =>
    intro b _
    rcases l with _ | ⟨t', l'⟩
    · rfl
    · rw [List.foldl_cons]
      rw [ih (updateBar b t) (by simp)]
      simp [List.getLastD]

theorem foldl_updateBar_high (l : List TickData) :
    ∀ b : ReplayableBar,
      ((l.foldl updateBar b).high = b.high ∨ (l.foldl updateBar b).high ∈ l.map (·.price)) ∧
      b.high ≤ (l.foldl updateBar b).high ∧
      ∀ p ∈ l.map (·.price), p ≤ (l.foldl updateBar b).high := by
  induction l with
  | nil =>
    intro b
    refine ⟨Or.inl rfl, le_refl _, ?_⟩
    simp
  | cons t l ih =>
    intro b
    rw [List.foldl_cons]
    obtain ⟨hmem, hle, hbound⟩ := ih (updateBar b t)
    have hub : (updateBar b t).high = max b.high t.price := rfl
    refine ⟨?_, ?_, ?_⟩
    · rcases hmem with h1 | h1
      · rw [h1, hub]
        rcases max_choice b.high t.price with h2 | h2
        · exact Or.inl h2
        · exact Or.inr (by rw [h2]; simp)
      · exact Or.inr (by simp [List.mem_cons]; right; simpa using h1)
    · exact le_trans (by rw [hub]; exact le_max_left _ _) hle
    · intro p hp
      rcases List.mem_cons.mp hp with rfl | hp'
      · exact le_trans (by rw [hub]; exact le_max_right _ _) hle
      · exact hbound p hp'

theorem foldl_updateBar_low (l : List TickData) :
    ∀ b : ReplayableBar,
      ((l.foldl updateBar b).low = b.low ∨ (l.foldl updateBar b).low ∈ l.map (·.price)) ∧
      (l.foldl updateBar b).low ≤ b.low ∧
      ∀ p ∈ l.map (·.price), (l.foldl updateBar b).low ≤ p := by
  induction l with
  | nil =>
    intro b
    refine ⟨Or.inl rfl, le_refl _, ?_⟩
    simp
  | cons t l ih =>
    intro b
    rw [List.foldl_cons]
    obtain ⟨hmem, hle, hbound⟩ := ih (updateBar b t)
    have hub : (updateBar b t).low = min b.low t.price := rfl
    refine ⟨?_, ?_, ?_⟩
    · rcases hmem with h1 | h1
      · rw [h1, hub]
        rcases min_choice b.low t.price with h2 | h2
        · exact Or.inl h2
        · exact Or.inr (by rw [h2]; simp)
      · exact Or.inr (by simp [List.mem_cons]; right; simpa using h1)
    · exact le_trans hle (by rw [hub]; exact min_le_left _ _)
    · intro p hp
      rcases List.mem_cons.mp hp with rfl | hp'
      · exact le_trans hle (by rw [hub]; exact min_le_right _ _)
      · exact hbound p hp'

theorem foldl_updateBar_volume (l : List TickData) :
    ∀ b : ReplayableBar,
      (l.foldl updateBar b).volume = b.volume + (l.map (fun t => t.volume.getD 0)).sum := by
  induction l with
  | nil => intro b; simp
  | cons t l ih =>
    intro b
    rw [List.foldl_cons, ih (updateBar b t)]
    show (updateBar b t).volume + _ = _
    rw [show (updateBar b t).volume = b.volume + t.volume.getD 0 from rfl]
    simp [add_assoc]

theorem addTicks_one_bucket (I B : ℚ) (l : List TickData)
    (hb : ∀ t ∈ l, (⌊t.timestamp / I⌋ : ℚ) * I = B) :
    ∀ b : ReplayableBar,
      addTicks ⟨I, [(B, b)], some B⟩ l = ⟨I, [(B, l.foldl updateBar b)], some B⟩ := by
  induction l with
  | nil => intro b; rfl
  | cons t l ih =>
    intro b
    have ht : (⌊t.timestamp / I⌋ : ℚ) * I = B := hb t (List.mem_cons_self _ _)
    have step : (TickAggregator.addTick ⟨I, [(B, b)], some B⟩ t).1
        = ⟨I, [(B, updateBar b t)], some B⟩ := by
      simp only [TickAggregator.addTick, TickAggregator.getBarTime]
      rw [ht]
      rw [show mapFind [(B, b)] B = some b from by simp [mapFind]]
      simp [mapSet, updateBar]
    rw [addTicks_cons, step, List.foldl_cons]
    exact ih (fun t' ht' => hb t' (List.mem_cons_of_mem _ ht')) (updateBar b t)

theorem addTick_fresh (I : ℚ) (t : TickData) :
    ((freshAggregator I).addTick t).1
      = ⟨I, [((⌊t.timestamp / I⌋ : ℚ) * I,
          ⟨(⌊t.timestamp / I⌋ : ℚ) * I, t.price, t.price, t.price, t.price, t.volume.getD 0⟩)],
          some ((⌊t.timestamp / I⌋ : ℚ) * I)⟩ := by
  simp [TickAggregator.addTick, freshAggregator, TickAggregator.getBarTime, mapFind, mapSet]

/-- C2: all ticks of a non-empty sequence falling in one bucket of a fresh
aggregator with interval `I > 0` produce a single current bar whose `time` is
the bucket start, `open` is the first price, `close` the last price, `high`
and `low` the maximum and minimum of the prices, and `volume` the sum of the
volumes (a missing volume counting as `0`). -/
theorem c2_single_bucket_ohlcv (I : ℚ) (t0 : TickData) (l : List TickData)
    (hI : 0 < I)
    (hbucket : ∀ t ∈ t0 :: l,
      (⌊t.timestamp / I⌋ : ℚ) * I = (⌊t0.timestamp / I⌋ : ℚ) * I) :
    (addTicks (freshAggregator I) (t0 :: l)).getCurrentBar.isSome = true ∧
    (currentBarD (addTicks (freshAggregator I) (t0 :: l))).time
      = (⌊t0.timestamp / I⌋ : ℚ) * I ∧
    (currentBarD (addTicks (freshAggregator I) (t0 :: l))).open_ = t0.price ∧
    (currentBarD (addTicks (freshAggregator I) (t0 :: l))).close
      = ((t0 :: l).getLastD defaultTick).price ∧
    ((currentBarD (addTicks (freshAggregator I) (t0 :: l))).high ∈ (t0 :: l).map (·.price) ∧
      ∀ p ∈ (t0 :: l).map (·.price),
        p ≤ (currentBarD (addTicks (freshAggregator I) (t0 :: l))).high) ∧
    ((currentBarD (addTicks (freshAggregator I) (t0 :: l))).low ∈ (t0 :: l).map (·.price) ∧
      ∀ p ∈ (t0 :: l).map (·.price),
        (currentBarD (addTicks (freshAggregator I) (t0 :: l))).low ≤ p) ∧
    (currentBarD (addTicks (freshAggregator I) (t0 :: l))).volume
      = ((t0 :: l).map (fun t => t.volume.getD 0)).sum := by
  set B := (⌊t0.timestamp / I⌋ : ℚ) * I with hB
  set b0 : ReplayableBar := ⟨B, t0.price, t0.price, t0.price, t0.price, t0.volume.getD 0⟩ with hb0
  have hfold : addTicks (freshAggregator I) (t0 :: l) = ⟨I, [(B, l.foldl updateBar b0)], some B⟩ := by
    rw [addTicks_cons, addTick_fresh]
    exact addTicks_one_bucket I B l
      (fun t ht => hbucket t (List.mem_cons_of_mem _ ht)) b0
  have hcur : (addTicks (freshAggregator I) (t0 :: l)).getCurrentBar
      = some (l.foldl updateBar b0) := by
    rw [hfold]
    simp [TickAggregator.getCurrentBar, mapFind]
  have hcurD : currentBarD (addTicks (freshAggregator I) (t0 :: l)) = l.foldl updateBar b0 := by
    rw [currentBarD, hcur]
    rfl
  refine ⟨by rw [hcur]; rfl, ?_, ?_, ?_, ?_, ?_, ?_⟩
  · rw [hcurD, foldl_updateBar_time]
  · rw [hcurD, foldl_updateBar_open]
  · rw [hcurD]
    rcases l with _ | ⟨t', l'⟩
    · rfl
    · rw [foldl_updateBar_close _ b0 (by simp)]
      simp [List.getLastD]
  · obtain ⟨hmem, hle, hbound⟩ := foldl_updateBar_high l b0
    rw [hcurD]
    constructor
    · rcases hmem with h1 | h1
      · rw [h1]
        exact List.mem_cons_self _ _
      · exact List.mem_cons_of_mem _ h1
    · intro p hp
      rcases List.mem_cons.mp hp with rfl | hp'
      · exact le_trans (le_refl _) hle
      · exact hbound p hp'
  · obtain ⟨hmem, hle, hbound⟩ := foldl_updateBar_low l b0
    rw [hcurD]
    constructor
    · rcases hmem with h1 | h1
      · rw [h1]
        exact List.mem_cons_self _ _
      · exact List.mem_cons_of_mem _ h1
    · intro p hp
      rcases List.mem_cons.mp hp with rfl | hp'
      · exact le_trans hle (le_refl _)
      · exact hbound p hp'
  · rw [hcurD, foldl_updateBar_volume]
    simp [hb0]

/-- Witness for C2: two ticks in bucket `[0, 60)` of a fresh 60-second
aggregator. -/
theorem c2_witness :
    (addTicks (freshAggregator 60) [⟨30, 10, some 2⟩, ⟨45, 12, none⟩]).getCurrentBar.isSome
      = true ∧
    (currentBarD (addTicks (freshAggregator 60) [⟨30, 10, some 2⟩, ⟨45, 12, none⟩])).open_ = 10 ∧
    (currentBarD (addTicks (freshAggregator 60) [⟨30, 10, some 2⟩, ⟨45, 12, none⟩])).close = 12 := by
  have h := c2_single_bucket_ohlcv 60 ⟨30, 10, some 2⟩ [⟨45, 12, none⟩] (by norm_num)
    (by
      intro t ht
      simp only [List.mem_cons, List.not_mem_nil, or_false] at ht
      rcases ht with rfl | rfl <;> norm_num)
  exact ⟨h.1, h.2.2.1, by rw [h.2.2.2.1]; rfl⟩

/-! ## C8: order book filtering and sorting -/

/-- C8: `getOrderBook(minSize)` returns as bids exactly the entries with
positive bid price and bid size at least `minSize`, projected to price levels
and sorted descending by price, and as asks exactly the entries with positive
ask price and ask size at least `minSize`, sorted ascending by price. -/
theorem c8_getOrderBook_filter_sort (st : List OrderBookEntry) (minSize : ℚ) :
    ((getOrderBook st minSize).1.Perm
        ((st.filter (fun e => decide (e.bid_price > 0 ∧ e.bid_size ≥ minSize))).map
          (fun e => BookLevel.mk e.publisher_id e.bid_price e.bid_size)) ∧
      (getOrderBook st minSize).1.Pairwise (fun a b => b.price ≤ a.price)) ∧
    ((getOrderBook st minSize).2.Perm
        ((st.filter (fun e => decide (e.ask_price > 0 ∧ e.ask_size ≥ minSize))).map
          (fun e => BookLevel.mk e.publisher_id e.ask_price e.ask_size)) ∧
      (getOrderBook st minSize).2.Pairwise (fun a b => a.price ≤ b.price)) := by
  have hbids : (getOrderBook st minSize).1
      = ((st.filter (fun e => decide (e.bid_price > 0 ∧ e.bid_size ≥ minSize))).map
          (fun e => BookLevel.mk e.publisher_id e.bid_price e.bid_size)).mergeSort
          (fun a b => decide (b.price ≤ a.price)) := rfl
  have hasks : (getOrderBook st minSize).2
      = ((st.filter (fun e => decide (e.ask_price > 0 ∧ e.ask_size ≥ minSize))).map
          (fun e => BookLevel.mk e.publisher_id e.ask_price e.ask_size)).mergeSort
          (fun a b => decide (a.price ≤ b.price)) := rfl
  refine ⟨⟨?_, ?_⟩, ⟨?_, ?_⟩⟩
  · rw [hbids]
    exact List.mergeSort_perm _ _
  · rw [hbids]
    have h := @List.sorted_mergeSort BookLevel (fun a b => decide (b.price ≤ a.price))
      (fun a b c hab hbc => by
        simp only [decide_eq_true_eq] at hab hbc ⊢
        exact le_trans hbc hab)
      (fun a b => by simpa using le_total b.price a.price)
      ((st.filter (fun e => decide (e.bid_price > 0 ∧ e.bid_size ≥ minSize))).map
          (fun e => BookLevel.mk e.publisher_id e.bid_price e.bid_size))
    exact h.imp (fun hab => by simpa using hab)
  · rw [hasks]
    exact List.mergeSort_perm _ _
  · rw [hasks]
    have h := @List.sorted_mergeSort BookLevel (fun a b => decide (a.price ≤ b.price))
      (fun a b c hab hbc => by
        simp only [decide_eq_true_eq] at hab hbc ⊢
        exact le_trans hab hbc)
      (fun a b => by simpa using le_total a.price b.price)
      ((st.filter (fun e => decide (e.ask_price > 0 ∧ e.ask_size ≥ minSize))).map
          (fun e => BookLevel.mk e.publisher_id e.ask_price e.ask_size))
    exact h.imp (fun hab => by simpa using hab)

/-! ## C9: bar emission on bucket transitions -/

theorem addTick_snd_time (agg : TickAggregator) (tick : TickData)
    (hinv : ∀ p ∈ agg.bars, p.2.time = p.1) :
    ((agg.addTick tick).2).time = agg.getBarTime tick.timestamp := by
  unfold TickAggregator.addTick
  cases hfind : mapFind agg.bars (agg.getBarTime tick.timestamp) with
  | none => simp [hfind]
  | some bar =>
    simp only [hfind]
    exact hinv _ (mapFind_mem hfind)

theorem addTick_fst_bars (agg : TickAggregator) (tick : TickData) :
    (agg.addTick tick).1.bars
      = mapSet agg.bars (agg.getBarTime tick.timestamp) (agg.addTick tick).2 := by
  unfold TickAggregator.addTick
  cases hfind : mapFind agg.bars (agg.getBarTime tick.timestamp) <;> simp [hfind]

/-- C9: `processTick` emits a `bar` event exactly when the bucket time
returned by the aggregator for the tick differs from the previously recorded
bucket time (and a previous one exists); the emitted bar is the stored bar of
that previous bucket, whose `time` is the previous bucket time — never the
newly opened bucket's bar. -/
theorem c9_bar_emitted_iff_transition (e : ReplayEngine) (tick : TickData)
    (hinv : AggBarsInv e) :
    (((e.processTick tick).2).isSome = true ↔
      ∃ t, e.lastBarTime = some t ∧ t ≠ e.aggregator.getBarTime tick.timestamp) ∧
    ∀ b, (e.processTick tick).2 = some b →
      ∃ t, e.lastBarTime = some t ∧
        t ≠ e.aggregator.getBarTime tick.timestamp ∧
        e.aggregator.getBar t = some b ∧ b.time = t := by
  obtain ⟨htimes, hlast⟩ := hinv
  have htt : ((e.aggregator.addTick tick).2).time = e.aggregator.getBarTime tick.timestamp :=
    addTick_snd_time _ _ htimes
  cases hlb : e.lastBarTime with
  | none =>
    have hred : (e.processTick tick).2 = none := by
      simp only [ReplayEngine.processTick, hlb]
    rw [hred]
    constructor
    · simp [hlb]
    · intro b hb
      simp at hb
  | some t =>
    have hred : (e.processTick tick).2
        = if e.aggregator.getBarTime tick.timestamp ≠ t
            then mapFind (e.aggregator.addTick tick).1.bars t else none := by
      simp only [ReplayEngine.processTick, hlb, htt]
    rw [hred]
    by_cases hne : e.aggregator.getBarTime tick.timestamp = t
    · rw [if_neg (fun hcon => hcon hne)]
      constructor
      · constructor
        · intro hcon
          simp at hcon
        · rintro ⟨t', ht', hne'⟩
          rw [Option.some.injEq] at ht'
          subst ht'
          exact absurd hne.symm hne'
      · intro b hb
        simp at hb
    · have hstep : mapFind (e.aggregator.addTick tick).1.bars t = mapFind e.aggregator.bars t := by
        rw [addTick_fst_bars, mapFind_mapSet, if_neg hne]
      have hsome := hlast t hlb
      obtain ⟨b, hb⟩ := Option.isSome_iff_exists.mp hsome
      rw [if_pos hne, hstep, hb]
      constructor
      · simp only [Option.isSome_some, true_iff]
        exact ⟨t, rfl, fun hcon => hne hcon.symm⟩
      · intro b' hb'
        rw [Option.some.injEq] at hb'
        subst hb'
        exact ⟨t, rfl, fun hcon => hne hcon.symm,
          by rw [TickAggregator.getBar, hb], htimes _ (mapFind_mem hb)⟩

/-- Witness for C9: `c9Engine` has a bar recorded in bucket `0`; processing a
tick in bucket `60` emits a bar. -/
theorem c9_witness : ((c9Engine.processTick c9Tick).2).isSome = true := by
  have hinv : AggBarsInv c9Engine := by
    constructor
    · intro p hp
      simp only [c9Engine, List.mem_singleton] at hp
      rw [hp]
    · intro t ht
      simp only [c9Engine, Option.some.injEq] at ht
      subst ht
      simp [c9Engine, mapFind]
  exact (c9_bar_emitted_iff_transition c9Engine c9Tick hinv).1.mpr
    ⟨0, rfl, by norm_num [c9Engine, c9Tick, TickAggregator.getBarTime]⟩

/-! ## Binary decoder lemmas -/

theorem ok_bind {α β : Type} (a : α) (f : α → Except DecodeErr β) :
    (Except.ok a : Except DecodeErr α) >>= f = f a := rfl

theorem error_bind {α β : Type} (e : DecodeErr) (f : α → Except DecodeErr β) :
    (Except.error e : Except DecodeErr α) >>= f = .error e := rfl

theorem pure_eq_ok {α : Type} (a : α) : (pure a : Except DecodeErr α) = .ok a := rfl

theorem throw_eq_error {α : Type} (e : DecodeErr) : (throw e : Except DecodeErr α) = .error e := rfl

theorem ite_bind_push {c : Prop} [Decidable c] {α β : Type}
    (a b : Except DecodeErr α) (f : α → Except DecodeErr β) :
    ((if c then a else b) >>= f) = if c then a >>= f else b >>= f := by
  split_ifs <;> rfl

theorem readUIntLE_eq (buf : List ℕ) (off n : ℕ) :
    readUIntLE buf off n
      = if off + n ≤ buf.length then .ok (leValU buf off n) else .error .rangeError := by
  rw [readUIntLE, readBytes]
  split_ifs <;> rfl

theorem readIntLE_eq (buf : List ℕ) (off n : ℕ) :
    readIntLE buf off n
      = if off + n ≤ buf.length then .ok (leValS buf off n) else .error .rangeError := by
  rw [readIntLE, readBytes]
  split_ifs <;> rfl

theorem parseV2Row_eq (buf : List ℕ) (base off : ℕ) :
    parseV2Row buf base off
      = if off + 64 ≤ buf.length then .ok (v2rowAt buf base off) else .error .rangeError := by
  by_cases h : off + 64 ≤ buf.length
  · rw [if_pos h, parseV2Row]
    have c1 : off + 8 ≤ buf.length := by omega
    have c2 : off + 8 + 1 ≤ buf.length := by omega
    have c3 : off + 9 + 2 ≤ buf.length := by omega
    have c4 : off + 11 + 4 ≤ buf.length := by omega
    have c5 : off + 15 + 1 ≤ buf.length := by omega
    have c6 : off + 16 + 1 ≤ buf.length := by omega
    have c7 : off + 17 + 1 ≤ buf.length := by omega
    have c8 : off + 18 + 8 ≤ buf.length := by omega
    have c9 : off + 26 + 4 ≤ buf.length := by omega
    have c10 : off + 30 + 2 ≤ buf.length := by omega
    have c11 : off + 32 + 4 ≤ buf.length := by omega
    have c12 : off + 36 + 4 ≤ buf.length := by omega
    have c13 : off + 40 + 4 ≤ buf.length := by omega
    have c14 : off + 44 + 4 ≤ buf.length := by omega
    have c15 : off + 48 + 4 ≤ buf.length := by omega
    have c16 : off + 52 + 4 ≤ buf.length := by omega
    have c17 : off + 56 + 4 ≤ buf.length := by omega
    have c18 : off + 60 + 4 ≤ buf.length := by omega
    simp only [readUIntLE_eq, readIntLE_eq, c1, c2, c3, c4, c5, c6, c7, c8, c9, c10, c11, c12, c13, c14, c15, c16, c17, c18, if_true,
      ok_bind, pure_eq_ok]
    rfl
  · rw [if_neg h, parseV2Row]
    by_cases c1 : off + 8 ≤ buf.length
    case neg => rw [readIntLE_eq, if_neg c1, error_bind]
    rw [readIntLE_eq, if_pos c1, ok_bind]
    try simp only []
    by_cases c2 : off + 8 + 1 ≤ buf.length
    case neg => rw [readUIntLE_eq, if_neg c2, error_bind]
    rw [readUIntLE_eq, if_pos c2, ok_bind]
    try simp only []
    by_cases c3 : off + 9 + 2 ≤ buf.length
    case neg => rw [readUIntLE_eq, if_neg c3, error_bind]
    rw [readUIntLE_eq, if_pos c3, ok_bind]
    try simp only []
    by_cases c4 : off + 11 + 4 ≤ buf.length
    case neg => rw [readUIntLE_eq, if_neg c4, error_bind]
    rw [readUIntLE_eq, if_pos c4, ok_bind]
    try simp only []
    by_cases c5 : off + 15 + 1 ≤ buf.length
    case neg => rw [readUIntLE_eq, if_neg c5, error_bind]
    rw [readUIntLE_eq, if_pos c5, ok_bind]
    try simp only []
    by_cases c6 : off + 16 + 1 ≤ buf.length
    case neg => rw [readUIntLE_eq, if_neg c6, error_bind]
    rw [readUIntLE_eq, if_pos c6, ok_bind]
    try simp only []
    by_cases c7 : off + 17 + 1 ≤ buf.length
    case neg => rw [readUIntLE_eq, if_neg c7, error_bind]
    rw [readUIntLE_eq, if_pos c7, ok_bind]
    try simp only []
    by_cases c8 : off + 18 + 8 ≤ buf.length
    case neg => rw [readIntLE_eq, if_neg c8, error_bind]
    rw [readIntLE_eq, if_pos c8, ok_bind]
    try simp only []
    by_cases c9 : off + 26 + 4 ≤ buf.length
    case neg => rw [readIntLE_eq, if_neg c9, error_bind]
    rw [readIntLE_eq, if_pos c9, ok_bind]
    try simp only []
    by_cases c10 : off + 30 + 2 ≤ buf.length
    case neg => rw [readUIntLE_eq, if_neg c10, error_bind]
    rw [readUIntLE_eq, if_pos c10, ok_bind]
    try simp only []
    by_cases c11 : off + 32 + 4 ≤ buf.length
    case neg => rw [readIntLE_eq, if_neg c11, error_bind]
    rw [readIntLE_eq, if_pos c11, ok_bind]
    try simp only []
    by_cases c12 : off + 36 + 4 ≤ buf.length
    case neg => rw [readUIntLE_eq, if_neg c12, error_bind]
    rw [readUIntLE_eq, if_pos c12, ok_bind]
    try simp only []
    by_cases c13 : off + 40 + 4 ≤ buf.length
    case neg => rw [readIntLE_eq, if_neg c13, error_bind]
    rw [readIntLE_eq, if_pos c13, ok_bind]
    try simp only []
    by_cases c14 : off + 44 + 4 ≤ buf.length
    case neg => rw [readIntLE_eq, if_neg c14, error_bind]
    rw [readIntLE_eq, if_pos c14, ok_bind]
    try simp only []
    by_cases c15 : off + 48 + 4 ≤ buf.length
    case neg => rw [readIntLE_eq, if_neg c15, error_bind]
    rw [readIntLE_eq, if_pos c15, ok_bind]
    try simp only []
    by_cases c16 : off + 52 + 4 ≤ buf.length
    case neg => rw [readIntLE_eq, if_neg c16, error_bind]
    rw [readIntLE_eq, if_pos c16, ok_bind]
    try simp only []
    by_cases c17 : off + 56 + 4 ≤ buf.length
    case neg => rw [readUIntLE_eq, if_neg c17, error_bind]
    rw [readUIntLE_eq, if_pos c17, ok_bind]
    try simp only []
    rw [readUIntLE_eq, if_neg (by omega : ¬(off + 60 + 4 ≤ buf.length)), error_bind]

theorem parseV2Rows_eq (buf : List ℕ) (base : ℕ) :
    ∀ (n off : ℕ), parseV2Rows buf base n off
      = if n = 0 ∨ off + 64 * n ≤ buf.length then .ok (v2rowsAt buf base n off)
        else .error .rangeError := by
  intro n
  induction n with
  | zero => intro off; simp [parseV2Rows, v2rowsAt]
  | succ n ih =>
    intro off
    have hrw : parseV2Rows buf base (n + 1) off = do
        let row ← parseV2Row buf base off
        let rest ← parseV2Rows buf base n (off + 64)
        return row :: rest := rfl
    rw [hrw, parseV2Row_eq]
    by_cases h1 : off + 64 ≤ buf.length
    · rw [if_pos h1, ok_bind]
      try simp only []
      rw [ih]
      by_cases h2 : n = 0 ∨ off + 64 + 64 * n ≤ buf.length
      · rw [if_pos h2, ok_bind]
        try simp only []
        rw [if_pos (by omega : n + 1 = 0 ∨ off + 64 * (n + 1) ≤ buf.length)]
        rfl
      · rw [if_neg h2, error_bind,
          if_neg (by omega : ¬(n + 1 = 0 ∨ off + 64 * (n + 1) ≤ buf.length))]
    · rw [if_neg h1, error_bind,
        if_neg (by omega : ¬(n + 1 = 0 ∨ off + 64 * (n + 1) ≤ buf.length))]

theorem v2rowsAt_length (buf : List ℕ) (base : ℕ) :
    ∀ n off, (v2rowsAt buf base n off).length = n := by
  intro n
  induction n with
  | zero => intro off; rfl
  | succ n ih => intro off; simp [v2rowsAt, ih]

theorem v2rowsAt_getD (buf : List ℕ) (base : ℕ) :
    ∀ n off k, k < n →
      (v2rowsAt buf base n off).getD k defaultV2Row = v2rowAt buf base (off + 64 * k) := by
  intro n
  induction n with
  | zero => intro off k hk; omega
  | succ n ih =>
    intro off k hk
    rcases k with _ | k
    · simp [v2rowsAt]
    · have := ih (off + 64) k (by omega)
      simp only [v2rowsAt, List.getD_cons_succ, this]
      congr 1
      omega

theorem bind_eq_ok {α β : Type} (x : Except DecodeErr α) (f : α → Except DecodeErr β) (b : β) :
    x >>= f = .ok b ↔ ∃ a, x = .ok a ∧ f a = .ok b := by
  cases x <;> simp [ok_bind, error_bind]

theorem bind_ok_or {α β : Type} {x : Except DecodeErr α} {f : α → Except DecodeErr β}
    (hx : (∃ a, x = .ok a) ∨ x = .error .rangeError)
    (hf : ∀ a, (∃ b, f a = .ok b) ∨ f a = .error .rangeError) :
    (∃ b, x >>= f = .ok b) ∨ x >>= f = .error .rangeError := by
  rcases hx with ⟨a, ha⟩ | ha
  · rw [ha, ok_bind]
    exact hf a
  · rw [ha, error_bind]
    exact Or.inr rfl

theorem readUIntLE_ok_or (buf : List ℕ) (off n : ℕ) :
    (∃ v, readUIntLE buf off n = .ok v) ∨ readUIntLE buf off n = .error .rangeError := by
  rw [readUIntLE_eq]
  split_ifs
  · exact Or.inl ⟨_, rfl⟩
  · exact Or.inr rfl

theorem readIntLE_ok_or (buf : List ℕ) (off n : ℕ) :
    (∃ v, readIntLE buf off n = .ok v) ∨ readIntLE buf off n = .error .rangeError := by
  rw [readIntLE_eq]
  split_ifs
  · exact Or.inl ⟨_, rfl⟩
  · exact Or.inr rfl

theorem readUIntLE_ok_bound {buf : List ℕ} {off n v : ℕ}
    (h : readUIntLE buf off n = .ok v) : off + n ≤ buf.length := by
  rw [readUIntLE_eq] at h
  split_ifs at h with hc
  exact hc

theorem parseV3Exchanges_ok_or (buf : List ℕ) (pmap : List (ℕ × ℕ)) :
    ∀ count off,
      (∃ r, parseV3Exchanges buf pmap count off = .ok r) ∨
        parseV3Exchanges buf pmap count off = .error .rangeError := by
  intro count
  induction count with
  | zero => intro off; exact Or.inl ⟨_, rfl⟩
  | succ count ih =>
    intro off
    simp only [parseV3Exchanges]
    refine bind_ok_or (readUIntLE_ok_or _ _ _) (fun a => ?_)
    refine bind_ok_or (readIntLE_ok_or _ _ _) (fun b => ?_)
    refine bind_ok_or (readIntLE_ok_or _ _ _) (fun c => ?_)
    refine bind_ok_or (readUIntLE_ok_or _ _ _) (fun d => ?_)
    refine bind_ok_or (readUIntLE_ok_or _ _ _) (fun e => ?_)
    refine bind_ok_or (ih _) (fun r => ?_)
    exact Or.inl ⟨_, rfl⟩

theorem parseV3Samples_ok_or (buf : List ℕ) (pmap : List (ℕ × ℕ)) :
    ∀ n off cum,
      (∃ rows, parseV3Samples buf pmap n off cum = .ok rows) ∨
        parseV3Samples buf pmap n off cum = .error .rangeError := by
  intro n
  induction n with
  | zero => intro off cum; exact Or.inl ⟨_, rfl⟩
  | succ n ih =>
    intro off cum
    simp only [parseV3Samples]
    refine bind_ok_or (readIntLE_ok_or _ _ _) (fun a => ?_)
    refine bind_ok_or (readIntLE_ok_or _ _ _) (fun b => ?_)
    refine bind_ok_or (readIntLE_ok_or _ _ _) (fun c => ?_)
    refine bind_ok_or (readIntLE_ok_or _ _ _) (fun d => ?_)
    refine bind_ok_or (readIntLE_ok_or _ _ _) (fun e => ?_)
    refine bind_ok_or (readUIntLE_ok_or _ _ _) (fun f => ?_)
    refine bind_ok_or (readUIntLE_ok_or _ _ _) (fun g => ?_)
    refine bind_ok_or (readUIntLE_ok_or _ _ _) (fun k => ?_)
    refine bind_ok_or (parseV3Exchanges_ok_or _ _ _ _) (fun ex => ?_)
    refine bind_ok_or (ih _ _) (fun rows => ?_)
    exact Or.inl ⟨_, rfl⟩

theorem parseV3Exchanges_ok_le (buf : List ℕ) (pmap : List (ℕ × ℕ)) :
    ∀ count off r, parseV3Exchanges buf pmap count off = .ok r → off ≤ r.2 := by
  intro count
  induction count with
  | zero =>
    intro off r h
    simp only [parseV3Exchanges] at h
    rw [Except.ok.injEq] at h
    subst h
    exact le_refl _
  | succ count ih =>
    intro off r h
    simp only [parseV3Exchanges, bind_eq_ok, pure_eq_ok] at h
    obtain ⟨a, _, b, _, c, _, d, _, e, _, rest, hrest, hr⟩ := h
    rw [Except.ok.injEq] at hr
    subst hr
    have := ih (off + 17) rest hrest
    simpa using by omega

theorem parseV3Samples_ok_bound (buf : List ℕ) (pmap : List (ℕ × ℕ)) :
    ∀ n off cum rows, parseV3Samples buf pmap n off cum = .ok rows → 1 ≤ n →
      off + 23 * n ≤ buf.length := by
  intro n
  induction n with
  | zero => intro off cum rows _ h1; omega
  | succ n ih =>
    intro off cum rows h _
    simp only [parseV3Samples, bind_eq_ok, pure_eq_ok] at h
    obtain ⟨a, _, b, _, c, _, d, _, e, _, f, _, g, _, k, hk, ex, hex, rest, hrest, _⟩ := h
    have h23 : off + 22 + 1 ≤ buf.length := readUIntLE_ok_bound hk
    have hexle : off + 23 ≤ ex.2 := by
      have := parseV3Exchanges_ok_le buf pmap k (off + 23) ex hex
      omega
    rcases Nat.eq_zero_or_pos n with rfl | hn
    · omega
    · have := ih ex.2 _ rest hrest hn
      omega

theorem parseV3Samples_trunc (buf : List ℕ) (pmap : List (ℕ × ℕ))
    (n off : ℕ) (cum : ℚ) (hn : 1 ≤ n) (hlen : buf.length < off + 23 * n) :
    parseV3Samples buf pmap n off cum = .error .rangeError := by
  rcases parseV3Samples_ok_or buf pmap n off cum with ⟨rows, hrows⟩ | herr
  · exact absurd (parseV3Samples_ok_bound buf pmap n off cum rows hrows hn) (by omega)
  · exact herr

theorem parseV3Samples_length (buf : List ℕ) (pmap : List (ℕ × ℕ)) :
    ∀ n off cum rows, parseV3Samples buf pmap n off cum = .ok rows → rows.length = n := by
  intro n
  induction n with
  | zero =>
    intro off cum rows h
    simp only [parseV3Samples] at h
    rw [Except.ok.injEq] at h
    subst h
    rfl
  | succ n ih =>
    intro off cum rows h
    simp only [parseV3Samples, bind_eq_ok, pure_eq_ok] at h
    obtain ⟨a, _, b, _, c, _, d, _, e, _, f, _, g, _, k, _, ex, _, rest, hrest, hr⟩ := h
    rw [Except.ok.injEq] at hr
    subst hr
    simp [ih _ _ _ hrest]

theorem parseV3Samples_timestamps (buf : List ℕ) (pmap : List (ℕ × ℕ)) :
    ∀ n off (cum : ℚ) rows, parseV3Samples buf pmap n off cum = .ok rows →
      ∀ k, k < rows.length →
        (rows.getD k defaultV3Sample).timestampMs
          = cum + ((((rows.take (k + 1)).map (·.timeDeltaMs)).sum : ℤ) : ℚ) := by
  intro n
  induction n with
  | zero =>
    intro off cum rows h k hk
    simp only [parseV3Samples] at h
    rw [Except.ok.injEq] at h
    subst h
    simp at hk
  | succ n ih =>
    intro off cum rows h k hk
    simp only [parseV3Samples, bind_eq_ok, pure_eq_ok] at h
    obtain ⟨a, _, b, _, c, _, d, _, e, _, f, _, g, _, m, _, ex, _, rest, hrest, hr⟩ := h
    rw [Except.ok.injEq] at hr
    subst hr
    rcases k with _ | k
    · simp
    · rw [List.getD_cons_succ, List.take_succ_cons, List.map_cons, List.sum_cons]
      rw [ih _ _ rest hrest k (by simpa using hk)]
      push_cast
      ring

theorem parseBinaryDataV2_eq (buf : List ℕ) :
    parseBinaryDataV2 buf
      = if 18 ≤ buf.length then
          (if buf.take 4 = tickMagic then parseV2Rows buf (v2BaseUs buf) (v2NumRows buf) 18
           else .error .formatError)
        else .error .rangeError := by
  rw [parseBinaryDataV2]
  simp only [readUIntLE_eq, readBytes, ite_bind_push, ok_bind, error_bind, pure_eq_ok,
    throw_eq_error, List.drop_zero]
  split_ifs <;> first | rfl | (exfalso; omega) | simp_all [v2BaseUs, v2NumRows, leValU]

theorem parseV3Samples_mono (buf : List ℕ) (pmap : List (ℕ × ℕ))
    (n off : ℕ) (cum : ℚ) (rows : List V3Sample)
    (h : parseV3Samples buf pmap n off cum = .ok rows)
    (hpos : ∀ s ∈ rows, 0 ≤ s.timeDeltaMs) :
    rows.Pairwise (fun a b => a.timestampMs ≤ b.timestampMs) := by
  rw [List.pairwise_iff_getElem]
  intro i j hi hj hij
  have hgi : rows[i] = rows.getD i defaultV3Sample :=
    (List.getD_eq_getElem rows defaultV3Sample hi).symm
  have hgj : rows[j] = rows.getD j defaultV3Sample :=
    (List.getD_eq_getElem rows defaultV3Sample hj).symm
  rw [hgi, hgj, parseV3Samples_timestamps buf pmap n off cum rows h i hi,
    parseV3Samples_timestamps buf pmap n off cum rows h j hj]
  have hsum : ((rows.take (i + 1)).map (·.timeDeltaMs)).sum
      ≤ ((rows.take (j + 1)).map (·.timeDeltaMs)).sum := by
    have hdecomp : (rows.take (j + 1)).map (·.timeDeltaMs)
        = ((rows.take (j + 1)).map (·.timeDeltaMs)).take (i + 1)
          ++ ((rows.take (j + 1)).map (·.timeDeltaMs)).drop (i + 1) :=
      (List.take_append_drop _ _).symm
    have htake : ((rows.take (j + 1)).map (·.timeDeltaMs)).take (i + 1)
        = (rows.take (i + 1)).map (·.timeDeltaMs) := by
      rw [← List.map_take, List.take_take]
      congr 2
      omega
    have hnn : 0 ≤ (((rows.take (j + 1)).map (·.timeDeltaMs)).drop (i + 1)).sum := by
      apply List.sum_nonneg
      intro x hx
      have hx' := List.drop_subset _ _ hx
      obtain ⟨s, hs, rfl⟩ := List.mem_map.mp hx'
      exact hpos s (List.take_subset _ _ hs)
    calc ((rows.take (i + 1)).map (·.timeDeltaMs)).sum
        ≤ ((rows.take (i + 1)).map (·.timeDeltaMs)).sum
            + (((rows.take (j + 1)).map (·.timeDeltaMs)).drop (i + 1)).sum :=
          le_add_of_nonneg_right hnn
      _ = ((rows.take (j + 1)).map (·.timeDeltaMs)).sum := by
          conv_rhs => rw [hdecomp]
          rw [List.sum_append, htake]
  exact add_le_add_left (Int.cast_le.mpr hsum) cum

theorem parseBinaryDataV3_eq (buf : List ℕ) :
    parseBinaryDataV3 buf
      = if 22 ≤ buf.length then
          parseV3Samples buf (v3Pmap buf) (v3NumSamples buf) (v3HeaderEnd buf) (v3BaseMs buf)
        else .error .rangeError := by
  by_cases h : 22 ≤ buf.length
  · rw [if_pos h, parseBinaryDataV3]
    have d1 : 0 + 4 ≤ buf.length := by omega
    have d2 : 4 + 2 ≤ buf.length := by omega
    have d3 : 6 + 2 ≤ buf.length := by omega
    have d4 : 8 + 4 ≤ buf.length := by omega
    have d5 : 12 + 8 ≤ buf.length := by omega
    have d6 : 20 + 2 ≤ buf.length := by omega
    simp only [readUIntLE_eq, readBytes, d1, d2, d3, d4, d5, d6, if_true, ok_bind]
    rfl
  · rw [if_neg h, parseBinaryDataV3]
    by_cases c1 : 0 + 4 ≤ buf.length
    case neg =>
      simp only [readBytes]
      rw [if_neg c1, error_bind]
    simp only [readBytes]
    rw [if_pos c1, ok_bind]
    try simp only []
    by_cases c2 : 4 + 2 ≤ buf.length
    case neg => rw [readUIntLE_eq, if_neg c2, error_bind]
    rw [readUIntLE_eq, if_pos c2, ok_bind]
    try simp only []
    by_cases c3 : 6 + 2 ≤ buf.length
    case neg => rw [readUIntLE_eq, if_neg c3, error_bind]
    rw [readUIntLE_eq, if_pos c3, ok_bind]
    try simp only []
    by_cases c4 : 8 + 4 ≤ buf.length
    case neg => rw [readUIntLE_eq, if_neg c4, error_bind]
    rw [readUIntLE_eq, if_pos c4, ok_bind]
    try simp only []
    by_cases c5 : 12 + 8 ≤ buf.length
    case neg => rw [readUIntLE_eq, if_neg c5, error_bind]
    rw [readUIntLE_eq, if_pos c5, ok_bind]
    try simp only []
    rw [readUIntLE_eq, if_neg (by omega : ¬(20 + 2 ≤ buf.length)), error_bind]

/-! ## C4: missing magic validation on the version-3 decode path -/

set_option maxRecDepth 100000 in
/-- C4 (code evaluation at the failing input): `c4Buf` is a version-3 buffer
whose first four bytes are `JUNK`, not the expected `TICK` magic; the decode
dispatch nevertheless succeeds and returns one decoded sample, because
`parseBinaryDataV3` reads the magic bytes but never validates them.  By
contrast, the same wrong magic on the version-2 path aborts the decode with
the format error, as the claim demands. -/
theorem c4_v3_decode_skips_magic_check :
    c4Buf.take 4 ≠ tickMagic ∧
    (decodeSessionBuffer c4Buf).isOk = true ∧
    (parseBinaryDataV3 c4Buf).map List.length = .ok 1 ∧
    c4BadV2Buf.take 4 ≠ tickMagic ∧
    parseBinaryDataV2 c4BadV2Buf = .error .formatError := by
  refine ⟨by decide, rfl, rfl, by decide, rfl⟩

/-! ## C5: truncated buffers fail without partial rows -/

/-- C5: a version-2 buffer with a valid magic header whose declared row count
requires more bytes than the buffer holds fails with the out-of-range read
error (the `RangeError` a truncated `DataView` read throws, realising the
spec's `TruncatedDataError`), and a version-3 buffer whose declared sample
count cannot fit fails the same way; successful decodes of either format
return exactly the declared number of rows — never a partial array. -/
theorem c5_truncated_buffer_fails (buf : List ℕ) :
    (18 ≤ buf.length → buf.take 4 = tickMagic →
        buf.length < 18 + 64 * v2NumRows buf →
      parseBinaryDataV2 buf = .error .rangeError) ∧
    (∀ rows, parseBinaryDataV2 buf = .ok rows → rows.length = v2NumRows buf) ∧
    (22 ≤ buf.length → 1 ≤ v3NumSamples buf →
        buf.length < v3HeaderEnd buf + 23 * v3NumSamples buf →
      parseBinaryDataV3 buf = .error .rangeError) ∧
    (∀ rows, parseBinaryDataV3 buf = .ok rows → rows.length = v3NumSamples buf) := by
  refine ⟨?_, ?_, ?_, ?_⟩
  · intro h18 hmagic htrunc
    rw [parseBinaryDataV2_eq, if_pos h18, if_pos hmagic, parseV2Rows_eq,
      if_neg (by omega : ¬(v2NumRows buf = 0 ∨ 18 + 64 * v2NumRows buf ≤ buf.length))]
  · intro rows hrows
    rw [parseBinaryDataV2_eq] at hrows
    split_ifs at hrows with h1 h2
    rw [parseV2Rows_eq] at hrows
    split_ifs at hrows with h3
    rw [Except.ok.injEq] at hrows
    subst hrows
    exact v2rowsAt_length buf (v2BaseUs buf) (v2NumRows buf) 18
  · intro h22 hn htrunc
    rw [parseBinaryDataV3_eq, if_pos h22]
    exact parseV3Samples_trunc buf (v3Pmap buf) (v3NumSamples buf) (v3HeaderEnd buf)
      (v3BaseMs buf) hn htrunc
  · intro rows hrows
    rw [parseBinaryDataV3_eq] at hrows
    split_ifs at hrows with h1
    exact parseV3Samples_length buf (v3Pmap buf) (v3NumSamples buf) (v3HeaderEnd buf)
      (v3BaseMs buf) rows hrows

set_option maxRecDepth 100000 in
/-- Witness for C5: concrete truncated buffers of both formats fail with the
range error. -/
theorem c5_witness :
    parseBinaryDataV2 c5v2Buf = .error DecodeErr.rangeError ∧
    parseBinaryDataV3 c5v3Buf = .error DecodeErr.rangeError := by
  constructor
  · exact (c5_truncated_buffer_fails c5v2Buf).1 (by decide) (by decide) (by decide)
  · exact (c5_truncated_buffer_fails c5v3Buf).2.2.1 (by decide) (by decide) (by decide)

/-! ## C6: delta-encoded timestamps -/

set_option maxRecDepth 100000 in
theorem c6Buf_parse : parseBinaryDataV2 c6Buf = .ok (v2rowsAt c6Buf 1000000 2 18) := by
  have hb : v2BaseUs c6Buf = 1000000 := by decide
  have hn : v2NumRows c6Buf = 2 := by decide
  rw [parseBinaryDataV2_eq, if_pos (by decide), if_pos (by decide), parseV2Rows_eq, hb, hn,
    if_pos (by decide : (2 = 0 ∨ 18 + 64 * 2 ≤ c6Buf.length))]

/-- C6 (amended): in the version-3 format each decoded sample's timestamp is
the base timestamp plus the cumulative sum of the deltas decoded up to and
including it, so non-negative deltas give non-decreasing timestamps; in the
version-2 format each row's timestamp is `base + that row's own delta` —
deltas are not accumulated across rows — so non-negative deltas do not imply
monotonicity there. -/
theorem c6_delta_timestamp_decoding (buf : List ℕ) :
    (∀ rows, parseBinaryDataV3 buf = .ok rows →
      (∀ k, k < rows.length →
        (rows.getD k defaultV3Sample).timestampMs
          = v3BaseMs buf + ((((rows.take (k + 1)).map (·.timeDeltaMs)).sum : ℤ) : ℚ)) ∧
      ((∀ s ∈ rows, 0 ≤ s.timeDeltaMs) →
        rows.Pairwise (fun a b => a.timestampMs ≤ b.timestampMs))) ∧
    (∀ rows, parseBinaryDataV2 buf = .ok rows →
      ∀ k, k < rows.length →
        readIntLE buf (18 + 64 * k) 8 = .ok (leValS buf (18 + 64 * k) 8) ∧
        (rows.getD k defaultV2Row).timestampMs
          = (((v2BaseUs buf : ℤ) + leValS buf (18 + 64 * k) 8 : ℤ) : ℚ) / 1000) := by
  constructor
  · intro rows hrows
    rw [parseBinaryDataV3_eq] at hrows
    split_ifs at hrows with h22
    exact ⟨fun k hk => parseV3Samples_timestamps buf (v3Pmap buf) (v3NumSamples buf)
        (v3HeaderEnd buf) (v3BaseMs buf) rows hrows k hk,
      fun hpos => parseV3Samples_mono buf (v3Pmap buf) (v3NumSamples buf)
        (v3HeaderEnd buf) (v3BaseMs buf) rows hrows hpos⟩
  · intro rows hrows k hk
    rw [parseBinaryDataV2_eq] at hrows
    split_ifs at hrows with h1 h2
    rw [parseV2Rows_eq] at hrows
    split_ifs at hrows with h3
    rw [Except.ok.injEq] at hrows
    subst hrows
    have hlen := v2rowsAt_length buf (v2BaseUs buf) (v2NumRows buf) 18
    rw [hlen] at hk
    constructor
    · rw [readIntLE_eq, if_pos (by omega : 18 + 64 * k + 8 ≤ buf.length)]
    · rw [v2rowsAt_getD buf (v2BaseUs buf) (v2NumRows buf) 18 k hk]
      rfl

set_option maxRecDepth 100000 in
/-- C6 counterexample: the claim as stated is false for the version-2 format.
In `c6Buf` both row deltas are non-negative (2,000,000 µs then 1,000,000 µs),
yet the decoded timestamps are 3000 ms then 2000 ms — strictly decreasing —
because the decoder adds each row's delta to the base timestamp independently
instead of accumulating it onto the previous row's timestamp. -/
theorem c6_counterexample :
    readIntLE c6Buf 18 8 = .ok 2000000 ∧
    readIntLE c6Buf 82 8 = .ok 1000000 ∧
    (parseBinaryDataV2 c6Buf).map (fun rows => rows.map (·.timestampMs)) = .ok [3000, 2000] ∧
    ¬((3000 : ℚ) ≤ 2000) := by
  refine ⟨rfl, rfl, ?_, by norm_num⟩
  rw [c6Buf_parse]
  rw [show (Except.ok (v2rowsAt c6Buf 1000000 2 18) : Except DecodeErr (List V2Row)).map
      (fun rows => rows.map (·.timestampMs))
      = .ok ((v2rowsAt c6Buf 1000000 2 18).map (·.timestampMs)) from rfl]
  have hts : (v2rowsAt c6Buf 1000000 2 18).map (·.timestampMs) = [3000, 2000] := by
    have d1 : leValS c6Buf 18 8 = 2000000 := by decide
    have d2 : leValS c6Buf (18 + 64) 8 = 1000000 := by decide
    simp only [v2rowsAt, List.map_cons, List.map_nil]
    rw [show (v2rowAt c6Buf 1000000 18).timestampMs
        = (((1000000 : ℤ) + leValS c6Buf 18 8 : ℤ) : ℚ) / 1000 from rfl,
      show (v2rowAt c6Buf 1000000 (18 + 64)).timestampMs
        = (((1000000 : ℤ) + leValS c6Buf (18 + 64) 8 : ℤ) : ℚ) / 1000 from rfl,
      d1, d2]
    norm_num
  rw [hts]

set_option maxRecDepth 100000 in
/-- Witness for C6: the version-3 accumulation formula at the first sample of
a well-formed version-3 buffer, and the version-2 `base + own delta` formula
at the first row of `c6Buf`. -/
theorem c6_witness :
    parseBinaryDataV3 c6v3Buf = .ok c6v3Rows ∧
    (c6v3Rows.getD 0 defaultV3Sample).timestampMs
      = v3BaseMs c6v3Buf + ((((c6v3Rows.take 1).map (·.timeDeltaMs)).sum : ℤ) : ℚ) ∧
    parseBinaryDataV2 c6Buf = .ok (v2rowsAt c6Buf 1000000 2 18) ∧
    ((v2rowsAt c6Buf 1000000 2 18).getD 0 defaultV2Row).timestampMs
      = (((v2BaseUs c6Buf : ℤ) + leValS c6Buf (18 + 64 * 0) 8 : ℤ) : ℚ) / 1000 := by
  have h3 : parseBinaryDataV3 c6v3Buf = .ok c6v3Rows := rfl
  have hlen3 : c6v3Rows.length = 1 := rfl
  have hk2 : (0 : ℕ) < (v2rowsAt c6Buf 1000000 2 18).length := by
    rw [v2rowsAt_length]
    norm_num
  refine ⟨h3, ?_, c6Buf_parse, ?_⟩
  · exact ((c6_delta_timestamp_decoding c6v3Buf).1 c6v3Rows h3).1 0 (by rw [hlen3]; norm_num)
  · exact ((c6_delta_timestamp_decoding c6Buf).2 (v2rowsAt c6Buf 1000000 2 18)
      c6Buf_parse 0 hk2).2

/-! ## C3: state bounds invariant -/

theorem drain_frame (T : ℚ) :
    ∀ (fuel : ℕ) (e : ReplayEngine), e.ticks.length - e.currentTickIndex = fuel →
      (e.drain T).1.state = e.state ∧ (e.drain T).1.ticks = e.ticks ∧
        (e.drain T).1.options = e.options := by
  intro fuel
  induction fuel using Nat.strong_induction_on with
  | _ fuel ih =>
    intro e hfuel
    rw [ReplayEngine.drain]
    split_ifs with h
    · obtain ⟨ha, hb, hc⟩ := ih (e.ticks.length - (e.currentTickIndex + 1))
        (by omega) { (e.processTick (e.ticks.getD e.currentTickIndex defaultTick)).1 with
          currentTickIndex :=
            (e.processTick (e.ticks.getD e.currentTickIndex defaultTick)).1.currentTickIndex + 1 }
        rfl
      exact ⟨ha, hb, hc⟩
    · exact ⟨rfl, rfl, rfl⟩

theorem inv_status_timer (st : Status) (b : Bool) {s tEnd : ℚ} {e : ReplayEngine}
    (h : EngineInv s tEnd e) :
    EngineInv s tEnd { e with state := { e.state with status := st }, timerActive := b } := by
  obtain ⟨hs, he, hc1, hc2, hsp, hsl, hne⟩ := h
  exact ⟨hs, he, hc1, hc2, hsp, hsl, hne⟩

theorem seekTo_state (e : ReplayEngine) (T : ℚ) (hne : ¬e.ticks.isEmpty = true) :
    (e.seekTo T).state.startTime = e.state.startTime ∧
    (e.seekTo T).state.endTime = e.state.endTime ∧
    (e.seekTo T).state.speed = e.state.speed ∧
    (e.seekTo T).state.currentTime = max e.state.startTime (min e.state.endTime T) ∧
    (e.seekTo T).ticks = e.ticks ∧ (e.seekTo T).options = e.options := by
  unfold ReplayEngine.seekTo
  rw [if_neg hne]
  simp only []
  split_ifs <;> exact ⟨rfl, rfl, rfl, rfl, rfl, rfl⟩

theorem seekTo_inv {s tEnd : ℚ} {e : ReplayEngine} (T : ℚ)
    (hinv : EngineInv s tEnd e) : EngineInv s tEnd (e.seekTo T) := by
  obtain ⟨hs, he, hc1, hc2, hsp, hsl, hne⟩ := hinv
  by_cases hemp : e.ticks.isEmpty
  · have hid : e.seekTo T = e := by
      unfold ReplayEngine.seekTo
      rw [if_pos hemp]
    rw [hid]
    exact ⟨hs, he, hc1, hc2, hsp, hsl, hne⟩
  · obtain ⟨h1, h2, h3, h4, h5, h6⟩ := seekTo_state e T hemp
    refine ⟨h1.trans hs, h2.trans he, ?_, ?_, ?_, ?_, ?_⟩
    · rw [h4, hs]
      exact le_max_left _ _
    · rw [h4, hs, he]
      exact max_le (le_trans hc1 hc2) (min_le_left _ _)
    · rw [h3]
      exact hsp
    · rw [h6]
      exact hsl
    · rw [h5]
      exact hne

theorem pause_inv {s tEnd : ℚ} {e : ReplayEngine}
    (hinv : EngineInv s tEnd e) : EngineInv s tEnd e.pause := by
  obtain ⟨hs, he, hc1, hc2, hsp, hsl, hne⟩ := hinv
  unfold ReplayEngine.pause
  split_ifs
  · exact ⟨hs, he, hc1, hc2, hsp, hsl, hne⟩
  · exact ⟨hs, he, hc1, hc2, hsp, hsl, hne⟩

theorem stop_inv {s tEnd : ℚ} {e : ReplayEngine}
    (hinv : EngineInv s tEnd e) : EngineInv s tEnd e.stop := by
  obtain ⟨hs, he, hc1, hc2, hsp, hsl, hne⟩ := hinv
  unfold ReplayEngine.stop
  split_ifs
  · exact ⟨hs, he, hc1, hc2, hsp, hsl, hne⟩
  · refine ⟨hs, he, ?_, ?_, hsp, hsl, hne⟩
    · show s ≤ e.state.startTime
      rw [hs]
    · show e.state.startTime ≤ tEnd
      rw [hs]
      exact le_trans hc1 hc2

theorem play_inv {s tEnd : ℚ} {e : ReplayEngine}
    (hinv : EngineInv s tEnd e) : EngineInv s tEnd e.play := by
  unfold ReplayEngine.play
  simp only []
  split_ifs
  all_goals first
    | exact hinv
    | exact seekTo_inv _ hinv
    | exact inv_status_timer _ _ (seekTo_inv _ hinv)
    | exact inv_status_timer _ _ hinv

theorem setSpeed_frame (e : ReplayEngine) (sp : ℚ) :
    (e.setSpeed sp).state.startTime = e.state.startTime ∧
    (e.setSpeed sp).state.endTime = e.state.endTime ∧
    (e.setSpeed sp).state.currentTime = e.state.currentTime ∧
    (e.setSpeed sp).options = e.options ∧ (e.setSpeed sp).ticks = e.ticks := by
  unfold ReplayEngine.setSpeed
  simp only []
  split_ifs
  all_goals first
    | exact ⟨rfl, rfl, rfl, rfl, rfl⟩
    | (split <;> exact ⟨rfl, rfl, rfl, rfl, rfl⟩)

theorem setSpeed_inv {s tEnd : ℚ} {e : ReplayEngine} (sp : ℚ)
    (hinv : EngineInv s tEnd e) : EngineInv s tEnd (e.setSpeed sp) := by
  obtain ⟨hs, he, hc1, hc2, hsp, hsl, hne⟩ := hinv
  obtain ⟨f1, f2, f3, f4, f5⟩ := setSpeed_frame e sp
  refine ⟨f1.trans hs, f2.trans he, ?_, ?_, ?_, ?_, ?_⟩
  · rw [f3]
    exact hc1
  · rw [f3]
    exact hc2
  · rcases hls : e.options.availableSpeeds with _ | ⟨hd, tl⟩
    · have hid : e.setSpeed sp = e := by
        unfold ReplayEngine.setSpeed
        rw [hls]
        simp
      rw [hid]
      exact hsp
    · exact hsl _ (setSpeed_snaps_closest e sp (by rw [hls]; simp)).1
  · rw [f4]
    exact hsl
  · rw [f5]
    exact hne

theorem stepForward_inv {s tEnd : ℚ} {e : ReplayEngine} (n : ℚ)
    (hinv : EngineInv s tEnd e) : EngineInv s tEnd (e.stepForward n) := by
  unfold ReplayEngine.stepForward
  split_ifs
  · exact hinv
  · exact seekTo_inv _ hinv

theorem stepBackward_inv {s tEnd : ℚ} {e : ReplayEngine} (n : ℚ)
    (hinv : EngineInv s tEnd e) : EngineInv s tEnd (e.stepBackward n) := by
  unfold ReplayEngine.stepBackward
  split_ifs
  · exact hinv
  · exact seekTo_inv _ hinv

theorem seekToPercent_inv {s tEnd : ℚ} {e : ReplayEngine} (p : ℚ)
    (hinv : EngineInv s tEnd e) : EngineInv s tEnd (e.seekToPercent p) :=
  seekTo_inv _ hinv

theorem processPlaybackTick_state (e : ReplayEngine) (dt : ℚ) :
    ((e.processPlaybackTick dt).state.startTime = e.state.startTime ∧
      (e.processPlaybackTick dt).state.endTime = e.state.endTime ∧
      (e.processPlaybackTick dt).state.speed = e.state.speed ∧
      (e.processPlaybackTick dt).options = e.options ∧
      (e.processPlaybackTick dt).ticks = e.ticks) ∧
    ((e.processPlaybackTick dt).state.currentTime = e.state.endTime ∨
      (e.processPlaybackTick dt).state.currentTime
        = min (e.state.currentTime + dt * e.state.speed) e.state.endTime ∨
      (e.processPlaybackTick dt).state.currentTime = e.state.currentTime) := by
  obtain ⟨hst, htk, hop⟩ := drain_frame (e.state.currentTime + dt * e.state.speed)
    (e.ticks.length - e.currentTickIndex) e rfl
  unfold ReplayEngine.processPlaybackTick
  simp only []
  split_ifs
  · exact ⟨⟨by simp only [hst], by simp only [hst], by simp only [hst],
      by simp only [hop], by simp only [htk]⟩, Or.inl (by simp only [hst])⟩
  · exact ⟨⟨by simp only [hst], by simp only [hst], by simp only [hst],
      by simp only [hop], by simp only [htk]⟩, Or.inr (Or.inl (by simp only [hst]))⟩
  · exact ⟨⟨by simp only [hst], by simp only [hst], by simp only [hst],
      by simp only [hop], by simp only [htk]⟩, Or.inr (Or.inr (by simp only [hst]))⟩

theorem processPlaybackTick_inv {s tEnd : ℚ} {e : ReplayEngine} (dt : ℚ)
    (hdt : 0 ≤ dt) (hinv : EngineInv s tEnd e) :
    EngineInv s tEnd (e.processPlaybackTick dt) := by
  obtain ⟨hs, he, hc1, hc2, hsp, hsl, hne⟩ := hinv
  obtain ⟨⟨f1, f2, f3, f4, f5⟩, fcur⟩ := processPlaybackTick_state e dt
  have hprod : 0 ≤ dt * e.state.speed := mul_nonneg hdt (le_of_lt hsp)
  refine ⟨f1.trans hs, f2.trans he, ?_, ?_, ?_, ?_, ?_⟩
  · rcases fcur with hcur | hcur | hcur <;> rw [hcur]
    · rw [he]
      exact le_trans hc1 hc2
    · refine le_min (le_trans hc1 (le_add_of_nonneg_right hprod)) ?_
      rw [he]
      exact le_trans hc1 hc2
    · exact hc1
  · rcases fcur with hcur | hcur | hcur <;> rw [hcur]
    · rw [he]
    · rw [he]
      exact min_le_right _ _
    · exact hc2
  · rw [f3]
    exact hsp
  · rw [f4]
    exact hsl
  · rw [f5]
    exact hne

theorem applyOp_inv {s tEnd : ℚ} {e : ReplayEngine} (op : Op)
    (hop : opElapsedNonneg op) (hinv : EngineInv s tEnd e) :
    EngineInv s tEnd (applyOp e op) := by
  cases op with
  | play => exact play_inv hinv
  | pause => exact pause_inv hinv
  | stop => exact stop_inv hinv
  | seekTo t => exact seekTo_inv t hinv
  | seekToPercent p => exact seekToPercent_inv p hinv
  | stepForward n => exact stepForward_inv n hinv
  | stepBackward n => exact stepBackward_inv n hinv
  | setSpeed sp => exact setSpeed_inv sp hinv
  | timerFire dt => exact processPlaybackTick_inv dt hop hinv

theorem applyOps_inv {s tEnd : ℚ} :
    ∀ (ops : List Op) (e : ReplayEngine), (∀ op ∈ ops, opElapsedNonneg op) →
      EngineInv s tEnd e → EngineInv s tEnd (applyOps e ops) := by
  intro ops
  induction ops with
  | nil => intro e _ hinv; exact hinv
  | cons op ops ih =>
    intro e hops hinv
    exact ih (applyOp e op) (fun o ho => hops o (List.mem_cons_of_mem _ ho))
      (applyOp_inv op (hops op (List.mem_cons_self _ _)) hinv)

theorem sorted_headD_le_getLastD :
    ∀ (l : List TickData), l ≠ [] →
      List.Pairwise (fun a b => a.timestamp ≤ b.timestamp) l →
      (l.headD defaultTick).timestamp ≤ (l.getLastD defaultTick).timestamp := by
  intro l
  induction l with
  | nil => intro h; exact absurd rfl h
  | cons a rest ih =>
    intro _ hp
    rcases rest with _ | ⟨b, rest'⟩
    · exact le_refl _
    · obtain ⟨hab, hp'⟩ := List.pairwise_cons.mp hp
      have h1 : a.timestamp ≤ b.timestamp := hab b (List.mem_cons_self _ _)
      have h2 := ih (by simp) hp'
      calc a.timestamp ≤ b.timestamp := h1
        _ ≤ ((b :: rest').getLastD defaultTick).timestamp := h2
        _ = ((a :: b :: rest').getLastD defaultTick).timestamp := by
            simp [List.getLastD]

theorem load_ticks_sorted (ticks : List TickData) (opts : ReplayOptions) :
    List.Pairwise (fun a b => a.timestamp ≤ b.timestamp)
      (ReplayEngine.load ticks opts).ticks := by
  have h := @List.sorted_mergeSort TickData
    (fun a b : TickData => decide (a.timestamp ≤ b.timestamp))
    (fun a b c hab hbc => by
      simp only [decide_eq_true_eq] at hab hbc ⊢
      exact le_trans hab hbc)
    (fun a b => by simpa using le_total a.timestamp b.timestamp)
    ticks
  exact h.imp (fun hab => by simpa using hab)

theorem load_ticks_ne (ticks : List TickData) (opts : ReplayOptions)
    (hne : ticks ≠ []) : (ReplayEngine.load ticks opts).ticks ≠ [] := by
  intro hcon
  have := (List.mergeSort_perm ticks
    (fun a b => decide (a.timestamp ≤ b.timestamp))).length_eq
  rw [show (ReplayEngine.load ticks opts).ticks
      = ticks.mergeSort (fun a b => decide (a.timestamp ≤ b.timestamp)) from rfl] at hcon
  rw [hcon] at this
  exact hne (List.eq_nil_of_length_eq_zero this.symm)

theorem load_inv (ticks : List TickData) (opts : ReplayOptions)
    (hne : ticks ≠ []) (hspeeds : ∀ v ∈ opts.availableSpeeds, 0 < v) :
    EngineInv ((ReplayEngine.load ticks opts).state.startTime)
      ((ReplayEngine.load ticks opts).state.endTime) (ReplayEngine.load ticks opts) := by
  have hsne := load_ticks_ne ticks opts hne
  have hsorted := load_ticks_sorted ticks opts
  have hemp : ((ticks.mergeSort (fun a b => decide (a.timestamp ≤ b.timestamp))).isEmpty) = false := by
    rw [List.isEmpty_eq_false_iff_exists_mem]
    rcases hl : ticks.mergeSort (fun a b => decide (a.timestamp ≤ b.timestamp)) with _ | ⟨a, l⟩
    · exact absurd hl hsne
    · exact ⟨a, List.mem_cons_self _ _⟩
  have hstate : (ReplayEngine.load ticks opts).state
      = ⟨.idle,
          ((ticks.mergeSort (fun a b => decide (a.timestamp ≤ b.timestamp))).headD
            defaultTick).timestamp,
          opts.availableSpeeds.headD 1,
          ((ticks.mergeSort (fun a b => decide (a.timestamp ≤ b.timestamp))).headD
            defaultTick).timestamp,
          ((ticks.mergeSort (fun a b => decide (a.timestamp ≤ b.timestamp))).getLastD
            defaultTick).timestamp⟩ := by
    show (if (ticks.mergeSort (fun a b => decide (a.timestamp ≤ b.timestamp))).isEmpty
      then _ else _) = _
    rw [hemp]
    simp only [Bool.false_eq_true, if_false]
  have hle := sorted_headD_le_getLastD _ hsne hsorted
  refine ⟨rfl, rfl, ?_, ?_, ?_, hspeeds, hsne⟩
  · rw [hstate]
  · rw [hstate]
    exact hle
  · rw [hstate]
    show 0 < opts.availableSpeeds.headD 1
    rcases hl : opts.availableSpeeds with _ | ⟨v, vs⟩
    · norm_num
    · exact hspeeds v (by rw [hl]; exact List.mem_cons_self _ _)

/-- C3: for an engine loaded with a non-empty tick array (positive bar
interval, positive configured speeds), after any sequence of operations —
play, pause, stop, seeks with arbitrary arguments, steps, speed changes, and
timer firings with non-negative elapsed wall time — the state satisfies
`startTime ≤ currentTime ≤ endTime`, and `startTime`/`endTime` still equal
the values fixed at load (the first/last tick timestamps). -/
theorem c3_state_bounds_invariant (ticks : List TickData) (opts : ReplayOptions)
    (ops : List Op) (hne : ticks ≠ []) (hI : 0 < opts.barInterval)
    (hspeeds : ∀ v ∈ opts.availableSpeeds, 0 < v)
    (hops : ∀ op ∈ ops, opElapsedNonneg op) :
    (applyOps (ReplayEngine.load ticks opts) ops).state.startTime
        ≤ (applyOps (ReplayEngine.load ticks opts) ops).state.currentTime ∧
    (applyOps (ReplayEngine.load ticks opts) ops).state.currentTime
        ≤ (applyOps (ReplayEngine.load ticks opts) ops).state.endTime ∧
    (applyOps (ReplayEngine.load ticks opts) ops).state.startTime
        = (ReplayEngine.load ticks opts).state.startTime ∧
    (applyOps (ReplayEngine.load ticks opts) ops).state.endTime
        = (ReplayEngine.load ticks opts).state.endTime := by
  obtain ⟨hs, he, hc1, hc2, _, _, _⟩ :=
    applyOps_inv ops (ReplayEngine.load ticks opts) hops
      (load_inv ticks opts hne hspeeds)
  refine ⟨?_, ?_, hs, he⟩
  · rw [hs]
    exact hc1
  · rw [he]
    exact hc2

/-- Witness for C3: two ticks, out-of-range seeks, a speed change, playback
and a timer firing. -/
theorem c3_witness :
    let e := applyOps (ReplayEngine.load c1wTicks {})
      [.play, .timerFire 1, .seekTo 500, .seekToPercent 200, .setSpeed 7,
        .stepBackward 3, .pause, .stop]
    e.state.startTime ≤ e.state.currentTime ∧
    e.state.currentTime ≤ e.state.endTime ∧
    e.state.startTime = (ReplayEngine.load c1wTicks {}).state.startTime ∧
    e.state.endTime = (ReplayEngine.load c1wTicks {}).state.endTime := by
  exact c3_state_bounds_invariant c1wTicks {}
    [.play, .timerFire 1, .seekTo 500, .seekToPercent 200, .setSpeed 7,
      .stepBackward 3, .pause, .stop]
    (by simp [c1wTicks]) (by norm_num [ReplayOptions])
    (by intro v hv; simp only [ReplayOptions] at hv; fin_cases hv <;> norm_num)
    (by
      intro op hop
      fin_cases hop <;> simp [opElapsedNonneg])

/-! ## C1: seeking versus replaying from the start -/

theorem takeWhile_length_le {α : Type} (p : α → Bool) :
    ∀ l : List α, (l.takeWhile p).length ≤ l.length := by
  intro l
  induction l with
  | nil => simp
  | cons a l ih =>
    by_cases h : p a
    · simp only [List.takeWhile_cons, h, if_true, List.length_cons]
      omega
    · simp only [List.takeWhile_cons, h, Bool.false_eq_true, if_false, List.length_nil]
      omega

theorem takeWhile_eq_take {α : Type} (p : α → Bool) :
    ∀ l : List α, l.takeWhile p = l.take (l.takeWhile p).length := by
  intro l
  induction l with
  | nil => rfl
  | cons a l ih =>
    by_cases h : p a
    · simp only [List.takeWhile_cons, h, if_true, List.length_cons, List.take_succ_cons]
      rw [← ih]
    · simp only [List.takeWhile_cons, h, Bool.false_eq_true, if_false, List.length_nil,
        List.take_zero]

theorem takeWhile_prop_getD {α : Type} (p : α → Bool) (d : α) :
    ∀ (l : List α) (i : ℕ), i < (l.takeWhile p).length → p (l.getD i d) = true := by
  intro l
  induction l with
  | nil => intro i hi; simp at hi
  | cons a l ih =>
    intro i hi
    by_cases h : p a
    · rcases i with _ | i
      · simpa using h
      · simp only [List.takeWhile_cons, h, if_true, List.length_cons] at hi
        simp only [List.getD_cons_succ]
        exact ih i (by omega)
    · simp [List.takeWhile_cons, h] at hi

theorem takeWhile_stop_getD {α : Type} (p : α → Bool) (d : α) :
    ∀ l : List α, (l.takeWhile p).length < l.length →
      p (l.getD (l.takeWhile p).length d) = false := by
  intro l
  induction l with
  | nil => intro h; simp at h
  | cons a l ih =>
    intro h
    by_cases hp : p a
    · simp only [List.takeWhile_cons, hp, if_true, List.length_cons] at h ⊢
      simp only [List.getD_cons_succ]
      exact ih (by omega)
    · simpa [List.takeWhile_cons, hp] using hp

theorem sorted_getD_mono (l : List TickData)
    (hs : List.Pairwise (fun a b => a.timestamp ≤ b.timestamp) l)
    {i j : ℕ} (hij : i ≤ j) (hj : j < l.length) :
    (l.getD i defaultTick).timestamp ≤ (l.getD j defaultTick).timestamp := by
  rcases eq_or_lt_of_le hij with rfl | hlt
  · exact le_refl _
  · have hi : i < l.length := lt_trans hlt hj
    rw [List.getD_eq_getElem l defaultTick hi, List.getD_eq_getElem l defaultTick hj]
    exact List.pairwise_iff_getElem.mp hs i j hi hj hlt

theorem sorted_takeWhile_eq_filter (T : ℚ) :
    ∀ l : List TickData, List.Pairwise (fun a b => a.timestamp ≤ b.timestamp) l →
      l.takeWhile (fun t => decide (t.timestamp < T))
        = l.filter (fun t => decide (t.timestamp < T)) := by
  intro l
  induction l with
  | nil => intro _; rfl
  | cons a l ih =>
    intro hp
    obtain ⟨ha, hp'⟩ := List.pairwise_cons.mp hp
    by_cases h : a.timestamp < T
    · rw [List.takeWhile_cons, List.filter_cons, if_pos (decide_eq_true h),
        if_pos (decide_eq_true h), ih hp']
    · rw [List.takeWhile_cons, List.filter_cons, if_neg (by simpa using h),
        if_neg (by simpa using h)]
      symm
      rw [List.filter_eq_nil_iff]
      intro b hb
      simp only [decide_eq_true_eq]
      exact fun hcon => h (lt_of_le_of_lt (ha b hb) hcon)

set_option maxHeartbeats 1000000 in
theorem bsearchLoop_eq_rank (l : List TickData) (T : ℚ)
    (hs : List.Pairwise (fun a b => a.timestamp ≤ b.timestamp) l) :
    ∀ (fuel left right : ℕ), right - left = fuel →
      left ≤ (l.takeWhile (fun t => decide (t.timestamp < T))).length →
      (l.takeWhile (fun t => decide (t.timestamp < T))).length ≤ right →
      right ≤ l.length →
      bsearchLoop l T left right
        = (l.takeWhile (fun t => decide (t.timestamp < T))).length := by
  intro fuel
  induction fuel using Nat.strong_induction_on with
  | _ fuel ih =>
    intro left right hfuel h1 h2 h3
    rw [bsearchLoop]
    simp only []
    split_ifs with hlr hp
    · have hmidlt : (left + right) / 2 < right := by omega
      have hmidlen : (left + right) / 2 < l.length := lt_of_lt_of_le hmidlt h3
      have hmidrank : (left + right) / 2
          < (l.takeWhile (fun t => decide (t.timestamp < T))).length := by
        by_contra hcon
        push_neg at hcon
        have hranklen : (l.takeWhile (fun t => decide (t.timestamp < T))).length
            < l.length := lt_of_le_of_lt hcon hmidlen
        have hstop := takeWhile_stop_getD (fun t => decide (t.timestamp < T))
          defaultTick l hranklen
        simp only [decide_eq_false_iff_not, not_lt] at hstop
        exact absurd hp (not_lt.mpr (le_trans hstop (sorted_getD_mono l hs hcon hmidlen)))
      exact ih (right - ((left + right) / 2 + 1)) (by omega) _ _ rfl (by omega) h2 h3
    · have hrankmid : (l.takeWhile (fun t => decide (t.timestamp < T))).length
          ≤ (left + right) / 2 := by
        by_contra hcon
        push_neg at hcon
        have hptrue := takeWhile_prop_getD (fun t => decide (t.timestamp < T))
          defaultTick l ((left + right) / 2) hcon
        simp only [decide_eq_true_eq] at hptrue
        exact hp hptrue
      exact ih ((left + right) / 2 - left) (by omega) _ _ rfl h1 hrankmid
        (le_trans (by omega) h3)
    · omega

theorem rebuild_foldl_fst (l : List TickData) :
    ∀ p : TickAggregator × Option ℚ,
      (l.foldl (fun (p : TickAggregator × Option ℚ) t =>
        let q := p.1.addTick t
        (q.1, some q.2.time)) p).1 = addTicks p.1 l := by
  induction l with
  | nil => intro p; rfl
  | cons t l ih =>
    intro p
    rw [List.foldl_cons, ih, addTicks_cons]

theorem rebuild_aggregator (e : ReplayEngine) (idx : ℕ) :
    (e.rebuildBarsToIndex idx).aggregator = addTicks e.aggregator.reset (e.ticks.take idx) := by
  unfold ReplayEngine.rebuildBarsToIndex
  simp only []
  exact rebuild_foldl_fst (e.ticks.take idx) (e.aggregator.reset, none)

theorem seekTo_aggregator (e : ReplayEngine) (T : ℚ) (hne : ¬e.ticks.isEmpty = true) :
    (e.seekTo T).aggregator
      = (e.rebuildBarsToIndex
          (e.findTickIndexForTime (max e.state.startTime (min e.state.endTime T)))).aggregator := by
  unfold ReplayEngine.seekTo
  rw [if_neg hne]
  simp only []
  split_ifs <;> rfl

theorem load_state_eq (ticks : List TickData) (opts : ReplayOptions) (hne : ticks ≠ []) :
    (ReplayEngine.load ticks opts).state
      = ⟨.idle, ((ReplayEngine.load ticks opts).ticks.headD defaultTick).timestamp,
          opts.availableSpeeds.headD 1,
          ((ReplayEngine.load ticks opts).ticks.headD defaultTick).timestamp,
          ((ReplayEngine.load ticks opts).ticks.getLastD defaultTick).timestamp⟩ := by
  have hsne := load_ticks_ne ticks opts hne
  have hemp : ((ticks.mergeSort (fun a b => decide (a.timestamp ≤ b.timestamp))).isEmpty)
      = false := by
    rw [List.isEmpty_eq_false_iff_exists_mem]
    rcases hl : ticks.mergeSort (fun a b => decide (a.timestamp ≤ b.timestamp)) with _ | ⟨a, l⟩
    · exact absurd hl hsne
    · exact ⟨a, List.mem_cons_self _ _⟩
  show (if (ticks.mergeSort (fun a b => decide (a.timestamp ≤ b.timestamp))).isEmpty
    then _ else _) = _
  rw [hemp]
  simp only [Bool.false_eq_true, if_false]
  rfl

theorem load_ticks_of_sorted (ticks : List TickData) (opts : ReplayOptions)
    (hs : List.Pairwise (fun a b => a.timestamp ≤ b.timestamp) ticks) :
    (ReplayEngine.load ticks opts).ticks = ticks := by
  show ticks.mergeSort (fun a b => decide (a.timestamp ≤ b.timestamp)) = ticks
  apply List.mergeSort_of_sorted
  exact hs.imp (fun h => by simpa using h)

theorem isEmpty_false_of_ne_nil {α : Type} {l : List α} (h : l ≠ []) :
    l.isEmpty = false := by
  rcases l with _ | ⟨a, l⟩
  · exact absurd rfl h
  · rfl

theorem seekTo_strict_replay (ticks : List TickData) (opts : ReplayOptions) (T : ℚ)
    (hne : ticks ≠ [])
    (hT1 : (ReplayEngine.load ticks opts).state.startTime ≤ T)
    (hT2 : T ≤ (ReplayEngine.load ticks opts).state.endTime) :
    ((ReplayEngine.load ticks opts).seekTo T).getBarsUntil T
      = (addTicks (freshAggregator opts.barInterval)
          (((ReplayEngine.load ticks opts).ticks).filter
            (fun t => decide (t.timestamp < T)))).getBarsUntil T := by
  have hsne : (ReplayEngine.load ticks opts).ticks ≠ [] := load_ticks_ne ticks opts hne
  have hsorted := load_ticks_sorted ticks opts
  have hemp : (ReplayEngine.load ticks opts).ticks.isEmpty = false :=
    isEmpty_false_of_ne_nil hsne
  have hclamp : max (ReplayEngine.load ticks opts).state.startTime
      (min (ReplayEngine.load ticks opts).state.endTime T) = T := by
    rw [min_eq_right hT2, max_eq_right hT1]
  have hidx : (ReplayEngine.load ticks opts).findTickIndexForTime T
      = ((ReplayEngine.load ticks opts).ticks.takeWhile
          (fun t => decide (t.timestamp < T))).length := by
    unfold ReplayEngine.findTickIndexForTime
    rw [hemp]
    simp only [Bool.false_eq_true, if_false]
    exact bsearchLoop_eq_rank _ T hsorted ((ReplayEngine.load ticks opts).ticks.length - 0)
      0 (ReplayEngine.load ticks opts).ticks.length rfl (Nat.zero_le _)
      (takeWhile_length_le _ _) (le_refl _)
  have htake : (ReplayEngine.load ticks opts).ticks.take
        (((ReplayEngine.load ticks opts).ticks.takeWhile
          (fun t => decide (t.timestamp < T))).length)
      = (ReplayEngine.load ticks opts).ticks.filter (fun t => decide (t.timestamp < T)) := by
    rw [← takeWhile_eq_take, sorted_takeWhile_eq_filter T _ hsorted]
  have hfresh : (ReplayEngine.load ticks opts).aggregator.reset
      = freshAggregator opts.barInterval := rfl
  show ((ReplayEngine.load ticks opts).seekTo T).aggregator.getBarsUntil T = _
  rw [seekTo_aggregator _ T (by rw [hemp]; exact Bool.false_ne_true), hclamp,
    rebuild_aggregator, hidx, htake, hfresh]

theorem addTick_newBucket (I : ℚ) (m : BarMap) (c : Option ℚ) (t : TickData)
    (hmf : mapFind m ((⌊t.timestamp / I⌋ : ℚ) * I) = none) :
    ((⟨I, m, c⟩ : TickAggregator).addTick t).1
      = ⟨I, mapSet m ((⌊t.timestamp / I⌋ : ℚ) * I)
            ⟨(⌊t.timestamp / I⌋ : ℚ) * I, t.price, t.price, t.price, t.price,
              t.volume.getD 0⟩,
          some ((⌊t.timestamp / I⌋ : ℚ) * I)⟩ := by
  unfold TickAggregator.addTick TickAggregator.getBarTime
  simp only []
  rw [hmf]

/-- C1 (amended).  After `load` of any non-empty tick list and any target `T`
within `[startTime, endTime]`, `seekTo T` followed by `getBarsUntil T` yields
the same bars as feeding the ticks with timestamp STRICTLY BELOW `T` (in
sorted order) into a fresh aggregator of the same interval and calling
`getBarsUntil T`.  The original claim (replaying ticks with timestamp `≤ T`)
is refuted by `c1_counterexample`: `seekTo` rebuilds bars from the binary
search's lower bound, which excludes a tick sitting exactly at `T`. -/
theorem c1_seek_replay_equiv (ticks : List TickData) (opts : ReplayOptions) (T : ℚ)
    (hne : ticks ≠ [])
    (hT1 : (ReplayEngine.load ticks opts).state.startTime ≤ T)
    (hT2 : T ≤ (ReplayEngine.load ticks opts).state.endTime) :
    ((ReplayEngine.load ticks opts).seekTo T).getBarsUntil T
      = (addTicks (freshAggregator opts.barInterval)
          (((ReplayEngine.load ticks opts).ticks).filter
            (fun t => decide (t.timestamp < T)))).getBarsUntil T :=
  seekTo_strict_replay ticks opts T hne hT1 hT2

/-- C1 counterexample: with ticks at timestamps 0 and 60 and `T = 60`
(`T` equal to a tick's timestamp, inside `[startTime, endTime]`),
`seekTo 60` followed by `getBarsUntil 60` does NOT equal replaying the
ticks with timestamp `≤ 60` into a fresh aggregator: the seek path drops
the tick at exactly 60, producing one bar instead of two. -/
theorem c1_counterexample :
    ¬(((ReplayEngine.load c1Ticks {}).seekTo 60).getBarsUntil 60
      = (addTicks (freshAggregator ({} : ReplayOptions).barInterval)
          (((ReplayEngine.load c1Ticks {}).ticks).filter
            (fun t => decide (t.timestamp ≤ 60)))).getBarsUntil 60) := by
  have hsorted : List.Pairwise (fun a b => a.timestamp ≤ b.timestamp) c1Ticks := by
    refine List.pairwise_cons.mpr ⟨?_, List.pairwise_singleton _ _⟩
    intro b hb
    rw [List.mem_singleton] at hb
    subst hb
    show (0:ℚ) ≤ 60
    norm_num
  have hne : c1Ticks ≠ [] := by simp [c1Ticks]
  have hticks : (ReplayEngine.load c1Ticks {}).ticks = c1Ticks :=
    load_ticks_of_sorted _ _ hsorted
  have hstate := load_state_eq c1Ticks {} hne
  have hT1 : (ReplayEngine.load c1Ticks {}).state.startTime ≤ 60 := by
    rw [hstate]
    show ((ReplayEngine.load c1Ticks {}).ticks.headD defaultTick).timestamp ≤ 60
    rw [hticks]
    show (0:ℚ) ≤ 60
    norm_num
  have hT2 : (60:ℚ) ≤ (ReplayEngine.load c1Ticks {}).state.endTime := by
    rw [hstate]
    show (60:ℚ) ≤ ((ReplayEngine.load c1Ticks {}).ticks.getLastD defaultTick).timestamp
    rw [hticks]
    show (60:ℚ) ≤ 60
    norm_num
  have hstrict := seekTo_strict_replay c1Ticks {} 60 hne hT1 hT2
  intro hcon
  rw [hstrict, hticks] at hcon
  have hd1 : decide ((⟨0, 1, none⟩ : TickData).timestamp < (60:ℚ)) = true :=
    decide_eq_true (show (0:ℚ) < 60 by norm_num)
  have hd2 : decide ((⟨60, 2, none⟩ : TickData).timestamp < (60:ℚ)) = false :=
    decide_eq_false (show ¬((60:ℚ) < 60) by norm_num)
  have hd3 : decide ((⟨0, 1, none⟩ : TickData).timestamp ≤ (60:ℚ)) = true :=
    decide_eq_true (show (0:ℚ) ≤ 60 by norm_num)
  have hd4 : decide ((⟨60, 2, none⟩ : TickData).timestamp ≤ (60:ℚ)) = true :=
    decide_eq_true (show (60:ℚ) ≤ 60 by norm_num)
  have hf1 : c1Ticks.filter (fun t => decide (t.timestamp < 60)) = [⟨0, 1, none⟩] := by
    show ([⟨0, 1, none⟩, ⟨60, 2, none⟩] : List TickData).filter _ = _
    rw [List.filter_cons, if_pos hd1, List.filter_cons, if_neg (by simp [hd2]),
      List.filter_nil]
  have hf2 : c1Ticks.filter (fun t => decide (t.timestamp ≤ 60))
      = [⟨0, 1, none⟩, ⟨60, 2, none⟩] := by
    show ([⟨0, 1, none⟩, ⟨60, 2, none⟩] : List TickData).filter _ = _
    rw [List.filter_cons, if_pos hd3, List.filter_cons, if_pos hd4, List.filter_nil]
  have hI : ({} : ReplayOptions).barInterval = 60 := rfl
  rw [hf1, hf2, hI] at hcon
  have hAgg1 : addTicks (freshAggregator 60) [(⟨0, 1, none⟩ : TickData)]
      = ⟨60, [(0, ⟨0, 1, 1, 1, 1, 0⟩)], some 0⟩ := by
    rw [show addTicks (freshAggregator 60) [(⟨0, 1, none⟩ : TickData)]
        = ((freshAggregator 60).addTick ⟨0, 1, none⟩).1 from rfl, addTick_fresh]
    norm_num
  have hAgg2 : addTicks (freshAggregator 60) [(⟨0, 1, none⟩ : TickData), ⟨60, 2, none⟩]
      = ⟨60, [(0, ⟨0, 1, 1, 1, 1, 0⟩), (60, ⟨60, 2, 2, 2, 2, 0⟩)], some 60⟩ := by
    rw [addTicks_cons, addTick_fresh]
    norm_num
    rw [show addTicks (⟨60, [(0, ⟨0, 1, 1, 1, 1, 0⟩)], some 0⟩ : TickAggregator)
          [(⟨60, 2, none⟩ : TickData)]
        = ((⟨60, [(0, ⟨0, 1, 1, 1, 1, 0⟩)], some 0⟩ : TickAggregator).addTick
            ⟨60, 2, none⟩).1 from rfl,
      addTick_newBucket 60 _ _ _ (by norm_num [mapFind])]
    norm_num [mapSet]
  rw [hAgg1, hAgg2] at hcon
  have hL : (⟨60, [(0, ⟨0, 1, 1, 1, 1, 0⟩)], some 0⟩ : TickAggregator).getBarsUntil 60
      = [⟨0, 1, 1, 1, 1, 0⟩] := by
    unfold TickAggregator.getBarsUntil TickAggregator.getAllBars TickAggregator.getBarTime
    simp only [List.map]
    rw [List.mergeSort_of_sorted (List.pairwise_singleton _ _)]
    rw [List.filter_cons,
      if_pos (decide_eq_true
        (show ((⟨0, 1, 1, 1, 1, 0⟩ : ReplayableBar)).time
            ≤ (⌊(60:ℚ) / 60⌋ : ℚ) * 60 by norm_num)),
      List.filter_nil]
  have hR : (⟨60, [(0, ⟨0, 1, 1, 1, 1, 0⟩), (60, ⟨60, 2, 2, 2, 2, 0⟩)], some 60⟩ :
        TickAggregator).getBarsUntil 60
      = [⟨0, 1, 1, 1, 1, 0⟩, ⟨60, 2, 2, 2, 2, 0⟩] := by
    unfold TickAggregator.getBarsUntil TickAggregator.getAllBars TickAggregator.getBarTime
    simp only [List.map]
    rw [List.mergeSort_of_sorted (by
      refine List.pairwise_cons.mpr ⟨?_, List.pairwise_singleton _ _⟩
      intro b hb
      rw [List.mem_singleton] at hb
      subst hb
      exact decide_eq_true (show (0:ℚ) ≤ 60 by norm_num))]
    rw [List.filter_cons,
      if_pos (decide_eq_true
        (show ((⟨0, 1, 1, 1, 1, 0⟩ : ReplayableBar)).time
            ≤ (⌊(60:ℚ) / 60⌋ : ℚ) * 60 by norm_num)),
      List.filter_cons,
      if_pos (decide_eq_true
        (show ((⟨60, 2, 2, 2, 2, 0⟩ : ReplayableBar)).time
            ≤ (⌊(60:ℚ) / 60⌋ : ℚ) * 60 by norm_num)),
      List.filter_nil]
  rw [hL, hR] at hcon
  have hlen := congrArg List.length hcon
  simp at hlen

/-- C1 witness: the amended equivalence instantiated at the two-tick list
`c1wTicks` (timestamps 0 and 120) and `T = 60`, with all hypotheses
discharged concretely. -/
theorem c1_witness :
    ((ReplayEngine.load c1wTicks {}).seekTo 60).getBarsUntil 60
      = (addTicks (freshAggregator ({} : ReplayOptions).barInterval)
          (((ReplayEngine.load c1wTicks {}).ticks).filter
            (fun t => decide (t.timestamp < 60)))).getBarsUntil 60 := by
  have hsorted : List.Pairwise (fun a b => a.timestamp ≤ b.timestamp) c1wTicks := by
    refine List.pairwise_cons.mpr ⟨?_, List.pairwise_singleton _ _⟩
    intro b hb
    rw [List.mem_singleton] at hb
    subst hb
    show (0:ℚ) ≤ 120
    norm_num
  have hne : c1wTicks ≠ [] := by simp [c1wTicks]
  have hticks : (ReplayEngine.load c1wTicks {}).ticks = c1wTicks :=
    load_ticks_of_sorted _ _ hsorted
  have hstate := load_state_eq c1wTicks {} hne
  exact c1_seek_replay_equiv c1wTicks {} 60 hne
    (by
      rw [hstate]
      show ((ReplayEngine.load c1wTicks {}).ticks.headD defaultTick).timestamp ≤ 60
      rw [hticks]
      show (0:ℚ) ≤ 60
      norm_num)
    (by
      rw [hstate]
      show (60:ℚ) ≤ ((ReplayEngine.load c1wTicks {}).ticks.getLastD defaultTick).timestamp
      rw [hticks]
      show (60:ℚ) ≤ 120
      norm_num)

end MomentumReplay
